import Mathlib

/-
Verification development for the BPO internal operations portal.

This file gives a shallow embedding, in Lean 4, of the two core subsystems
of the repository:

  * the scoped sequence generator of `app/services/pay_dispute_service.py`
    (`generate_ticket_number`, `create_pay_dispute`) and
    `app/services/ir_nte_service.py` (`generate_doc_id`), and
  * the permission resolution engine of `app/services/rbac_service.py`
    (`get_user_permissions`, `check_permission`, `get_accessible_modules`,
    `grant_custom_permission`, `revoke_custom_permission`).

Python strings are embedded as `List Char`; SQLAlchemy tables as lists of
structure values carrying the columns the core logic reads; the autoincrement
primary key as max-id-plus-one on insert; Python dictionaries as association
lists with first-key overwrite semantics; and fallible operations (the
`int(...)` parse, the uniqueness constraint at commit, the `ValueError`
raised by `grant_custom_permission`) as `Option`/`Except` values.
-/

/-- Python strings are modelled as lists of characters. -/
abbrev Str := List Char

namespace SeqGen

/-! ## Decimal rendering and parsing

`generate_ticket_number` formats with an f-string (`f"{prefix}{new_num:04d}"`)
and parses with `int(t.split("-")[-1])`.  Both are embedded here from first
principles so that they are executable and provable. -/

/-- The decimal digit character for a digit value (used with `d < 10`). -/
def digitChar (d : Nat) : Char := Char.ofNat (48 + d)

/-- Fuelled most-significant-first decimal digit expansion of a natural
number; the fuel is structural so that the function reduces in the kernel. -/
def natDigitsAux : Nat → Nat → Str
  | 0, _ => []
  | fuel + 1, n =>
      if n < 10 then [digitChar n]
      else natDigitsAux fuel (n / 10) ++ [digitChar (n % 10)]

/-- The decimal digit string of a natural number (embeds `str(n)` / `{n:d}`
for the non-negative numbers that occur here).  `n + 1` fuel suffices since
each step at least halves the number. -/
def natDigits (n : Nat) : Str := natDigitsAux (n + 1) n

/-- Embeds the Python format specifier `{new_num:04d}`: the decimal digits,
left-padded with zeros to at least four characters (wider values are
rendered unchanged). -/
def pad4 (n : Nat) : Str :=
  let s := natDigits n
  List.replicate (4 - s.length) '0' ++ s

/-- Embeds Python's `str.strip()` (leading and trailing whitespace removed),
as performed by `int(...)` before parsing. -/
def pyStrip (s : Str) : Str :=
  ((s.dropWhile Char.isWhitespace).reverse.dropWhile Char.isWhitespace).reverse

/-- One decimal-accumulator step: `a * 10 +` the value of the digit `c`. -/
def digitStep (a : Nat) (c : Char) : Nat := a * 10 + (c.toNat - 48)

/-- Embeds Python's `int(s)` on the strings that can occur as the last
`"-"`-separated token of an identifier: optional whitespace, an optional
`'+'` sign, then one or more decimal digits; anything else raises
`ValueError`, embedded as `none`.  (A `'-'` sign cannot occur in a token
produced by `split("-")`; PEP-515 underscore grouping and non-ASCII digits
are not modelled.) -/
def pyInt? (s : Str) : Option Nat :=
  let t0 := pyStrip s
  let t := if t0.head? = some '+' then t0.tail else t0
  if !t.isEmpty && t.all Char.isDigit then
    some (t.foldl digitStep 0)
  else
    none

/-- Embeds `s.split("-")[-1]`: the suffix of `s` after its last `'-'`
(the whole string when no `'-'` occurs). -/
def lastPart (s : Str) : Str :=
  (s.reverse.takeWhile (fun c => c ≠ '-')).reverse

/-! ## The store

Rows of the `pay_disputes` (resp. `ir_nte_logs`) table, restricted to the
two columns the generator logic reads: the autoincrement primary key `id`
and the uniquely-indexed public identifier column (`ticket_no` resp.
`doc_id`).  The remaining columns do not influence identifier assignment. -/

/-- A stored row: primary key and public identifier. -/
structure SeqRow where
  id : Nat
  ident : Str
deriving DecidableEq

/-- One comparison step of the max-id scan. -/
def latestStep (acc : Option SeqRow) (r : SeqRow) : Option SeqRow :=
  match acc with
  | none => some r
  | some m => if m.id < r.id then some r else some m

/-- Embeds `.order_by(Model.id.desc()).first()`: the row with the greatest
primary key, `none` on an empty result set. -/
def latestByIdDesc (rows : List SeqRow) : Option SeqRow :=
  rows.foldl latestStep none

/-- The next sequence number for a given prefix, embedding the body of
`generate_ticket_number` / `generate_doc_id`: take the row with the highest
`id` among rows whose identifier matches `LIKE "{pfx}%"`; parse its last
`"-"`-separated token; increment; on a parse failure (`except ValueError`)
or an empty result, start at 1. -/
def nextNumFrom (pfx : Str) (rows : List SeqRow) : Nat :=
  match latestByIdDesc (rows.filter (fun r => pfx.isPrefixOf r.ident)) with
  | some r =>
      match pyInt? (lastPart r.ident) with
      | some k => k + 1
      | none => 1
  | none => 1

/-- The generated identifier for a given prefix: `f"{pfx}{new_num:04d}"`. -/
def nextFrom (pfx : Str) (rows : List SeqRow) : Str :=
  pfx ++ pad4 (nextNumFrom pfx rows)

/-- The pay-dispute prefix `f"PAY-{year}-"`. -/
def payPfx (year : Nat) : Str := "PAY-".data ++ natDigits year ++ ['-']

/-- Embeds `generate_ticket_number` of `app/services/pay_dispute_service.py`
(the wall-clock `datetime.now().year` is passed as the `year` argument, the
queried `pay_disputes` table as `rows`). -/
def generate_ticket_number (year : Nat) (rows : List SeqRow) : Str :=
  nextFrom (payPfx year) rows

/-- The document prefix `f"{doc_type}-{year}-"`. -/
def docPfx (doc_type : Str) (year : Nat) : Str :=
  doc_type ++ ['-'] ++ natDigits year ++ ['-']

/-- Embeds `generate_doc_id` of `app/services/ir_nte_service.py` (same
algorithm as `generate_ticket_number`, over the `ir_nte_logs` table with a
caller-supplied `doc_type` prefix). -/
def generate_doc_id (doc_type : Str) (year : Nat) (rows : List SeqRow) : Str :=
  nextFrom (docPfx doc_type year) rows

/-- The autoincrement primary-key allocator: one more than the largest
existing `id` (1 on an empty table). -/
def maxId (rows : List SeqRow) : Nat := rows.foldl (fun a r => max a r.id) 0

/-- Embeds `db.add(dispute); db.commit()` against the unique index on
`ticket_no`: committing a row whose identifier already exists raises
`IntegrityError` (embedded as `.error ()`); otherwise the row is appended
with the next primary key. -/
def insertDispute (rows : List SeqRow) (t : Str) : Except Unit (List SeqRow) :=
  if rows.any (fun r => r.ident == t) then .error ()
  else .ok (rows ++ [⟨maxId rows + 1, t⟩])

/-- Embeds `create_pay_dispute` of `app/services/pay_dispute_service.py`,
restricted to identifier assignment: generate the ticket number from the
current table state, then insert and commit.  The function contains no
conflict handling: an `IntegrityError` at commit propagates to the caller. -/
def create_pay_dispute (year : Nat) (rows : List SeqRow) :
    Except Unit (List SeqRow × Str) :=
  let t := generate_ticket_number year rows
  match insertDispute rows t with
  | .error e => .error e
  | .ok rs => .ok (rs, t)

/-- `n` sequential (non-concurrent) `create_pay_dispute` calls, each reading
the table state left by the previous one; the list of minted tickets is
returned, and any commit failure propagates. -/
def runCreates (year : Nat) (rows : List SeqRow) :
    Nat → Except Unit (List SeqRow × List Str)
  | 0 => .ok (rows, [])
  | n + 1 =>
      match create_pay_dispute year rows with
      | .error e => .error e
      | .ok (rs, t) =>
          match runCreates year rs n with
          | .error e => .error e
          | .ok (rs', ts) => .ok (rs', t :: ts)

/-! ## Spec-side generator

The specification describes the generator differently from the code: it says
the next number is one plus the numeric suffix of the *numerically highest*
existing identifier for the prefix.  The following definitions follow the
spec's words, for comparison with `generate_ticket_number` above. -/

/-- The numeric suffix of a stored identifier (0 when unparseable). -/
def suffixVal (r : SeqRow) : Nat := (pyInt? (lastPart r.ident)).getD 0

/-- The greatest numeric suffix among a list of rows. -/
def maxSuffix (rows : List SeqRow) : Nat :=
  rows.foldl (fun a r => max a (suffixVal r)) 0

/-- Spec-side generator, following the spec's words: one plus the numeric
suffix of the numerically highest existing identifier matching the prefix,
zero-padded to 4 digits; 1 when no identifier matches. -/
def specNextIdentifier (pfx : Str) (rows : List SeqRow) : Str :=
  let matching := rows.filter (fun r => pfx.isPrefixOf r.ident)
  pfx ++ pad4 (if matching.isEmpty then 1 else maxSuffix matching + 1)

/-- Relation under which the code's latest-by-id scan agrees with the
spec's highest-suffix description: the latest matching row, when present,
parses exactly to the greatest numeric suffix among matching rows. -/
def latestParsesToMax (pfx : Str) (rows : List SeqRow) : Bool :=
  match latestByIdDesc (rows.filter (fun r => pfx.isPrefixOf r.ident)) with
  | none => true
  | some r =>
      pyInt? (lastPart r.ident) ==
        some (maxSuffix (rows.filter (fun r => pfx.isPrefixOf r.ident)))

end SeqGen

namespace Rbac

/-! ## Data model

The tables of `app/models/rbac.py`, restricted to the columns the
permission-resolution logic reads.  The `roles` table is kept as its set of
primary keys (resolution only tests existence of the `user.role`
relationship); the other tables keep every column the service layer uses. -/

/-- A row of the `modules` table. -/
structure Module where
  id : Nat
  name : String
  display_name : String
  category : String
  icon : String
  route : String
  sort_order : Nat
  is_active : Bool
deriving DecidableEq

/-- A row of the `role_module_permissions` table. -/
structure RoleModulePermission where
  role_id : Nat
  module_id : Nat
  can_view : Bool
  can_create : Bool
  can_edit : Bool
  can_delete : Bool
deriving DecidableEq

/-- A row of the `user_module_permissions` table. -/
structure UserModulePermission where
  user_id : Nat
  module_id : Nat
  can_view : Bool
  can_create : Bool
  can_edit : Bool
  can_delete : Bool
  granted_by : Option Nat
deriving DecidableEq

/-- A row of the `users` table (identity and nullable role reference). -/
structure User where
  id : Nat
  role_id : Option Nat
deriving DecidableEq

/-- The database state read and written by the RBAC service. -/
structure Db where
  roles : List Nat
  modules : List Module
  role_perms : List RoleModulePermission
  user_perms : List UserModulePermission
deriving DecidableEq

/-! ## Python dictionary values

The permission map built by `get_user_permissions` is a Python dict of
dicts whose inner values are booleans under the keys `"view"`, `"create"`,
`"edit"`, `"delete"` and a `Module` ORM object under the key `"module"`.
Inner values are embedded as a sum, dicts as association lists with
insert-or-overwrite assignment. -/

/-- A value stored in a per-module permission dict entry. -/
inductive PyVal where
  | b (v : Bool)
  | mod (m : Module)
deriving DecidableEq

/-- Python truthiness of a stored value (an ORM object is truthy). -/
def pyTruthy : PyVal → Bool
  | .b v => v
  | .mod _ => true

/-- Python `x or flag` on a stored value and a boolean column value. -/
def pyOr (x : PyVal) (flag : Bool) : PyVal :=
  if pyTruthy x then x else .b flag

/-- Dict lookup: `d[k]` / `k in d`, as an `Option`. -/
def aget {α : Type} : List (String × α) → String → Option α
  | [], _ => none
  | (k', v') :: r, k => if k' == k then some v' else aget r k

/-- Dict assignment `d[k] = v`: overwrite the existing binding, else append. -/
def aset {α : Type} : List (String × α) → String → α → List (String × α)
  | [], k, v => [(k, v)]
  | (k', v') :: r, k, v =>
      if k' == k then (k, v) :: r else (k', v') :: aset r k v

/-- A per-module permission dict. -/
abbrev Entry := List (String × PyVal)

/-- The resolved permission map: module name to per-module dict. -/
abbrev PermDict := List (String × Entry)

/-- `e.get(k, False)`: the stored value, defaulting to the boolean `False`. -/
def entryGetD (e : Entry) (k : String) : PyVal := (aget e k).getD (.b false)

/-- The dict literal built for a role permission row in
`get_user_permissions` (keys in source order). -/
def entryOfRole (p : RoleModulePermission) (m : Module) : Entry :=
  [("view", .b p.can_view), ("create", .b p.can_create),
   ("edit", .b p.can_edit), ("delete", .b p.can_delete), ("module", .mod m)]

/-! ## Permission resolution (`get_user_permissions` and its callers) -/

/-- The first loop of `get_user_permissions`: seed the map from the role's
permission rows, skipping rows whose module id resolves to no module. -/
def rolePhase (db : Db) : List RoleModulePermission → PermDict → PermDict
  | [], acc => acc
  | p :: rest, acc =>
      match db.modules.find? (fun m => m.id == p.module_id) with
      | some m => rolePhase db rest (aset acc m.name (entryOfRole p m))
      | none => rolePhase db rest acc

/-- The body of the second loop of `get_user_permissions` for one custom
permission row: ensure an entry exists (seeded with only the `"module"`
key), then OR each flag into it. -/
def customStep (db : Db) (acc : PermDict) (p : UserModulePermission) : PermDict :=
  match db.modules.find? (fun m => m.id == p.module_id) with
  | none => acc
  | some m =>
      let acc1 :=
        if (aget acc m.name).isNone then aset acc m.name [("module", .mod m)]
        else acc
      let e0 := (aget acc1 m.name).getD []
      let e1 := aset e0 "view" (pyOr (entryGetD e0 "view") p.can_view)
      let e2 := aset e1 "create" (pyOr (entryGetD e1 "create") p.can_create)
      let e3 := aset e2 "edit" (pyOr (entryGetD e2 "edit") p.can_edit)
      let e4 := aset e3 "delete" (pyOr (entryGetD e3 "delete") p.can_delete)
      aset acc1 m.name e4

/-- The second loop of `get_user_permissions`. -/
def customPhase (db : Db) : List UserModulePermission → PermDict → PermDict
  | [], acc => acc
  | p :: rest, acc => customPhase db rest (customStep db acc p)

/-- The `user.role` relationship: the role id when it is set and the row
exists, else `none` (a dangling or null `role_id` yields `None`). -/
def userRole? (db : Db) (user : User) : Option Nat :=
  match user.role_id with
  | some rid => if rid ∈ db.roles then some rid else none
  | none => none

/-- Embeds `get_user_permissions` of `app/services/rbac_service.py`:
role-default rows first, then custom per-user rows ORed on top. -/
def get_user_permissions (db : Db) (user : User) : PermDict :=
  let base :=
    match userRole? db user with
    | some rid =>
        rolePhase db (db.role_perms.filter (fun p => p.role_id == rid)) []
    | none => []
  customPhase db (db.user_perms.filter (fun p => p.user_id == user.id)) base

/-- Embeds `check_permission` of `app/services/rbac_service.py`.  The result
is the raw dict value: the Python function returns `False` when the module
is absent and `permissions[module_name].get(action, False)` otherwise,
which is a boolean for the four flag keys but the `Module` ORM object for
the key `"module"`. -/
def check_permission (db : Db) (user : User) (module_name action : String) :
    PyVal :=
  let permissions := get_user_permissions db user
  match aget permissions module_name with
  | none => .b false
  | some e => entryGetD e action

/-- One element of the list built by `get_accessible_modules`. -/
structure AccessibleEntry where
  name : String
  display_name : String
  category : String
  icon : String
  route : String
  can_view : PyVal
  can_create : PyVal
  can_edit : PyVal
  can_delete : PyVal
deriving DecidableEq

/-- Embeds `get_accessible_modules` of `app/services/rbac_service.py`:
iterate the active modules ordered by `sort_order`, keeping those present
in the resolved map with a truthy `"view"` value.  The SQL `ORDER BY` is
embedded as a stable insertion sort on `sort_order`. -/
def get_accessible_modules (db : Db) (user : User) : List AccessibleEntry :=
  let permissions := get_user_permissions db user
  let all_modules :=
    List.insertionSort (fun a b => a.sort_order ≤ b.sort_order)
      (db.modules.filter (fun m => m.is_active))
  all_modules.filterMap (fun m =>
    match aget permissions m.name with
    | none => none
    | some e =>
        if pyTruthy (entryGetD e "view") then
          some ⟨m.name, m.display_name, m.category, m.icon, m.route,
                entryGetD e "view", entryGetD e "create",
                entryGetD e "edit", entryGetD e "delete"⟩
        else none)

/-! ## Override management (`grant_custom_permission`, `revoke_custom_permission`) -/

/-- Replace the first element satisfying the predicate (the SQLAlchemy
in-place mutation of the row returned by `.first()`). -/
def replaceFirst {α : Type} : List α → (α → Bool) → α → List α
  | [], _, _ => []
  | x :: r, p, v => if p x then v :: r else x :: replaceFirst r p v

/-- Remove the first element satisfying the predicate (`db.delete(perm)` on
the row returned by `.first()`). -/
def removeFirst {α : Type} : List α → (α → Bool) → List α
  | [], _ => []
  | x :: r, p => if p x then r else x :: removeFirst r p

/-- Embeds `grant_custom_permission` of `app/services/rbac_service.py`:
a missing module raises `ValueError` (embedded as `.error`); an existing
(user, module) row has its four flags and `granted_by` overwritten in
place; otherwise a new row is inserted. -/
def grant_custom_permission (db : Db) (user_id : Nat) (module_name : String)
    (can_view can_create can_edit can_delete : Bool)
    (granted_by : Option Nat) : Except String Db :=
  match db.modules.find? (fun m => m.name == module_name) with
  | none => .error ("Module " ++ module_name ++ " not found")
  | some m =>
      let isRow := fun (p : UserModulePermission) =>
        p.user_id == user_id && p.module_id == m.id
      let row : UserModulePermission :=
        ⟨user_id, m.id, can_view, can_create, can_edit, can_delete, granted_by⟩
      match db.user_perms.find? isRow with
      | some _ => .ok { db with user_perms := replaceFirst db.user_perms isRow row }
      | none => .ok { db with user_perms := db.user_perms ++ [row] }

/-- Embeds `revoke_custom_permission` of `app/services/rbac_service.py`:
returns `False` (state unchanged) when the module does not exist, deletes
the override row and returns `True` when one exists, and returns `False`
(state unchanged) when none does. -/
def revoke_custom_permission (db : Db) (user_id : Nat) (module_name : String) :
    Bool × Db :=
  match db.modules.find? (fun m => m.name == module_name) with
  | none => (false, db)
  | some m =>
      let isRow := fun (p : UserModulePermission) =>
        p.user_id == user_id && p.module_id == m.id
      match db.user_perms.find? isRow with
      | some _ => (true, { db with user_perms := removeFirst db.user_perms isRow })
      | none => (false, db)

/-! ## Spec-side resolution

The specification's formula for the effective permission: per (user,
module, action), `role_default OR custom_override`, either side `false`
when its row (or the module, or the role) is absent. -/

/-- One of the four permission actions. -/
inductive Action where
  | view
  | create
  | edit
  | delete
deriving DecidableEq

/-- The dict key naming an action. -/
def Action.key : Action → String
  | .view => "view"
  | .create => "create"
  | .edit => "edit"
  | .delete => "delete"

/-- The named flag of a role permission row. -/
def RoleModulePermission.flag (p : RoleModulePermission) : Action → Bool
  | .view => p.can_view
  | .create => p.can_create
  | .edit => p.can_edit
  | .delete => p.can_delete

/-- The named flag of a custom permission row. -/
def UserModulePermission.flag (p : UserModulePermission) : Action → Bool
  | .view => p.can_view
  | .create => p.can_create
  | .edit => p.can_edit
  | .delete => p.can_delete

/-- Module lookup by unique name. -/
def moduleByName (db : Db) (k : String) : Option Module :=
  db.modules.find? (fun m => m.name == k)

/-- The (unique, under well-formedness) role-default row of the user's role
for a module, `none` when the user has no role or no row exists. -/
def roleRowFor (db : Db) (user : User) (m : Module) :
    Option RoleModulePermission :=
  match userRole? db user with
  | some rid =>
      db.role_perms.find? (fun p => p.role_id == rid && p.module_id == m.id)
  | none => none

/-- The (unique, under well-formedness) override row of the user for a
module, `none` when no row exists. -/
def userRowFor (db : Db) (user : User) (m : Module) :
    Option UserModulePermission :=
  db.user_perms.find? (fun p => p.user_id == user.id && p.module_id == m.id)

/-- Spec-side `role_default[module][flag]`: the flag of the user's role's
row for the named module, `false` when the role, module or row is absent. -/
def roleDefault (db : Db) (user : User) (k : String) (a : Action) : Bool :=
  match moduleByName db k with
  | some m =>
      match roleRowFor db user m with
      | some p => p.flag a
      | none => false
  | none => false

/-- Spec-side `custom_override[module][flag]`: the flag of the user's
override row for the named module, `false` when the module or row is
absent. -/
def overrideFlag (db : Db) (user : User) (k : String) (a : Action) : Bool :=
  match moduleByName db k with
  | some m =>
      match userRowFor db user m with
      | some p => p.flag a
      | none => false
  | none => false

/-! ## Well-formedness

Primary-key and unique-constraint invariants of the schema: module ids and
names are unique, and the role/user permission tables hold at most one row
per (role, module) resp. (user, module) pair. -/

/-- Boolean pairwise check on a list. -/
def pairwiseB {α : Type} (p : α → α → Bool) : List α → Bool
  | [] => true
  | x :: r => r.all (fun y => p x y) && pairwiseB p r

/-- Schema invariants assumed by resolution: unique module ids and names,
at most one role permission row per (role, module), at most one custom
permission row per (user, module). -/
def wellFormed (db : Db) : Bool :=
  pairwiseB (fun m1 m2 => m1.id != m2.id && m1.name != m2.name) db.modules &&
  pairwiseB (fun p q => !(p.role_id == q.role_id && p.module_id == q.module_id))
    db.role_perms &&
  pairwiseB (fun p q => !(p.user_id == q.user_id && p.module_id == q.module_id))
    db.user_perms


/-! ## Derived definitions used by the verification layer -/

/-- The module name a role permission row resolves to through the module
catalog, `none` when its module id is dangling. -/
def roleRowName (db : Db) (p : RoleModulePermission) : Option String :=
  (db.modules.find? (fun m => m.id == p.module_id)).map (fun m => m.name)

/-- The module name a custom permission row resolves to through the module
catalog, `none` when its module id is dangling. -/
def userRowName (db : Db) (p : UserModulePermission) : Option String :=
  (db.modules.find? (fun m => m.id == p.module_id)).map (fun m => m.name)

/-- The role-phase result of `get_user_permissions` (its map state after
the first loop). -/
def basePerms (db : Db) (user : User) : PermDict :=
  match userRole? db user with
  | some rid =>
      rolePhase db (db.role_perms.filter (fun p => p.role_id == rid)) []
  | none => []

/-- The entry produced by the custom-permission loop body for one row,
given the prior entry for the module (if any). -/
def customEntry (oe : Option Entry) (p : UserModulePermission) (m : Module) :
    Entry :=
  let e0 := match oe with
    | none => [("module", PyVal.mod m)]
    | some e => e
  let e1 := aset e0 "view" (pyOr (entryGetD e0 "view") p.can_view)
  let e2 := aset e1 "create" (pyOr (entryGetD e1 "create") p.can_create)
  let e3 := aset e2 "edit" (pyOr (entryGetD e2 "edit") p.can_edit)
  aset e3 "delete" (pyOr (entryGetD e3 "delete") p.can_delete)

/-- The entry for a module covered by a role row and an override row: each
flag is the OR of the two rows' flags. -/
def entryMerged (p : RoleModulePermission) (q : UserModulePermission)
    (m : Module) : Entry :=
  [("view", .b (p.can_view || q.can_view)),
   ("create", .b (p.can_create || q.can_create)),
   ("edit", .b (p.can_edit || q.can_edit)),
   ("delete", .b (p.can_delete || q.can_delete)),
   ("module", .mod m)]

/-- The entry for a module covered only by an override row. -/
def entryOfOverride (q : UserModulePermission) (m : Module) : Entry :=
  [("module", .mod m), ("view", .b q.can_view), ("create", .b q.can_create),
   ("edit", .b q.can_edit), ("delete", .b q.can_delete)]

/-- The closed form of the resolved map at one module name, under the
schema invariants: determined by the module and the (at most one) role row
and override row for it. -/
def resolvedEntry (db : Db) (user : User) (k : String) : Option Entry :=
  match moduleByName db k with
  | none => none
  | some m =>
      match roleRowFor db user m, userRowFor db user m with
      | none, none => none
      | some p, none => some (entryOfRole p m)
      | none, some q => some (entryOfOverride q m)
      | some p, some q => some (entryMerged p q m)

/-- The filter condition of `get_accessible_modules`: the module is in the
resolved map with a truthy `"view"` value. -/
def viewCond (perms : PermDict) (m : Module) : Bool :=
  match aget perms m.name with
  | none => false
  | some e => pyTruthy (entryGetD e "view")

/-- The list element `get_accessible_modules` builds for a kept module. -/
def entryFor (perms : PermDict) (m : Module) : AccessibleEntry :=
  let e := (aget perms m.name).getD []
  ⟨m.name, m.display_name, m.category, m.icon, m.route,
   entryGetD e "view", entryGetD e "create",
   entryGetD e "edit", entryGetD e "delete"⟩

/-- An administrative override operation (the two mutators of the
override table). -/
inductive OverrideOp where
  | grant (uid : Nat) (mname : String) (v c e d : Bool) (gb : Option Nat)
  | revoke (uid : Nat) (mname : String)

/-- Apply one operation to the store; a grant whose module is missing
raises `ValueError` and leaves the store unchanged. -/
def applyOp (db : Db) : OverrideOp → Db
  | .grant uid mname v c e d gb =>
      match grant_custom_permission db uid mname v c e d gb with
      | .ok db2 => db2
      | .error _ => db
  | .revoke uid mname => (revoke_custom_permission db uid mname).snd

/-- Apply a sequence of override operations. -/
def applyOps (db : Db) (ops : List OverrideOp) : Db := ops.foldl applyOp db

/-- The number of override rows stored for a (user, module) pair. -/
def countRows (l : List UserModulePermission) (uid mid : Nat) : Nat :=
  (l.filter (fun p => p.user_id == uid && p.module_id == mid)).length

/-- The unique-pair invariant of the override table: no two rows share a
(user, module) pair. -/
def umpUnique (l : List UserModulePermission) : Bool :=
  pairwiseB (fun p q => !(p.user_id == q.user_id && p.module_id == q.module_id)) l


/-! ## Concrete fixtures used by witnesses and counterexamples -/

/-- A module fixture mirroring the `dashboard` entry of the catalog. -/
def dashModule : Module :=
  ⟨1, "dashboard", "Dashboard", "dashboard",
   "solar:pie-chart-2-bold-duotone", "/dashboard", 0, true⟩

/-- A module fixture mirroring the `pay_disputes` entry of the catalog. -/
def payModule : Module :=
  ⟨2, "pay_disputes", "Pay Disputes", "hr_people",
   "solar:wallet-money-bold-duotone", "/hr/pay-disputes", 12, true⟩

/-- A deactivated module fixture (`schedule` with `is_active = False`). -/
def offModule : Module :=
  ⟨3, "schedule", "Schedule", "operations",
   "solar:calendar-bold-duotone", "/operations/schedule", 1, false⟩

/-- A user fixture holding role 1. -/
def demoUser : User := ⟨1, some 1⟩

/-- A store fixture: role 1 grants `view` on `dashboard`; the user holds a
zero-flag override on `dashboard` and a `view` override on `pay_disputes`;
`schedule` is deactivated but fully granted by role and override. -/
def demoDb : Db :=
  ⟨[1], [dashModule, payModule, offModule],
   [⟨1, 1, true, false, false, false⟩, ⟨1, 3, true, true, true, true⟩],
   [⟨1, 1, false, false, false, false, none⟩,
    ⟨1, 2, true, false, false, false, none⟩,
    ⟨1, 3, true, true, true, true, none⟩]⟩

/-- An empty store (no modules at all). -/
def emptyDb : Db := ⟨[], [], [], []⟩

/-- A store holding only the `pay_disputes` module and no override rows. -/
def payOnlyDb : Db := ⟨[], [payModule], [], []⟩

/-- A store where a roleless user holds a `view` override on
`pay_disputes` and nothing else. -/
def overrideOnlyDb : Db :=
  ⟨[], [payModule], [], [⟨1, 2, true, false, false, false, none⟩]⟩

end Rbac

namespace SeqGen

/-! ## Round-trip lemmas for rendering and parsing -/

theorem natDigitsAux_congr :
    ∀ f1 f2 n, n < f1 → n < f2 → natDigitsAux f1 n = natDigitsAux f2 n := by
  intro f1
  induction f1 with
  | zero => intro f2 n h1; omega
  | succ g ih =>
      intro f2 n h1 h2
      match f2, h2 with
      | h + 1, _ =>
        simp only [natDigitsAux]
        by_cases hn : n < 10
        · simp [hn]
        · simp only [if_neg hn]
          have hlt : n / 10 < n := Nat.div_lt_self (by omega) (by omega)
          rw [ih h (n / 10) (by omega) (by omega)]

theorem natDigits_eq (n : Nat) :
    natDigits n =
      if n < 10 then [digitChar n]
      else natDigits (n / 10) ++ [digitChar (n % 10)] := by
  show natDigitsAux (n + 1) n = _
  simp only [natDigitsAux]
  by_cases hn : n < 10
  · simp [hn]
  · simp only [if_neg hn]
    have hlt : n / 10 < n := Nat.div_lt_self (by omega) (by omega)
    rw [natDigitsAux_congr n (n / 10 + 1) (n / 10) (by omega) (by omega)]
    rfl

theorem digitChar_isDigit {d : Nat} (h : d < 10) : (digitChar d).isDigit = true := by
  interval_cases d <;> decide

theorem digitChar_toNat {d : Nat} (h : d < 10) : (digitChar d).toNat = 48 + d := by
  interval_cases d <;> decide

theorem isDigit_not_ws {c : Char} (h : c.isDigit = true) : c.isWhitespace = false := by
  simp only [Char.isWhitespace, Bool.or_eq_false_iff, decide_eq_false_iff_not]
  repeat' apply And.intro
  all_goals (intro hc; subst hc; simp [Char.isDigit] at h)

theorem isDigit_ne_dash {c : Char} (h : c.isDigit = true) : c ≠ '-' := by
  intro hc; subst hc; simp [Char.isDigit] at h

theorem isDigit_ne_plus {c : Char} (h : c.isDigit = true) : c ≠ '+' := by
  intro hc; subst hc; simp [Char.isDigit] at h

theorem natDigits_all_digit (n : Nat) : ∀ c ∈ natDigits n, c.isDigit = true := by
  induction n using Nat.strong_induction_on with
  | _ n ih =>
      rw [natDigits_eq]
      by_cases hn : n < 10
      · simp only [if_pos hn, List.mem_singleton]
        intro c hc; subst hc; exact digitChar_isDigit hn
      · simp only [if_neg hn, List.mem_append, List.mem_singleton]
        intro c hc
        rcases hc with hc | hc
        · exact ih (n / 10) (Nat.div_lt_self (by omega) (by omega)) c hc
        · subst hc; exact digitChar_isDigit (Nat.mod_lt n (by omega))

theorem natDigits_ne_nil (n : Nat) : natDigits n ≠ [] := by
  rw [natDigits_eq]
  by_cases hn : n < 10
  · simp [hn]
  · simp [hn]

theorem pad4_all_digit (n : Nat) : ∀ c ∈ pad4 n, c.isDigit = true := by
  intro c hc
  simp only [pad4, List.mem_append, List.mem_replicate] at hc
  rcases hc with ⟨_, hc⟩ | hc
  · subst hc; decide
  · exact natDigits_all_digit n c hc

theorem dropWhile_eq_self_of_all {p : Char → Bool} {l : Str}
    (h : ∀ c ∈ l, p c = false) : l.dropWhile p = l := by
  cases l with
  | nil => rfl
  | cons x xs =>
      rw [List.dropWhile_cons, if_neg]
      simp [h x (List.mem_cons_self x xs)]

theorem pyStrip_of_all_digit {l : Str} (h : ∀ c ∈ l, c.isDigit = true) :
    pyStrip l = l := by
  have hnw : ∀ c ∈ l, c.isWhitespace = false := fun c hc => isDigit_not_ws (h c hc)
  unfold pyStrip
  rw [dropWhile_eq_self_of_all hnw,
      dropWhile_eq_self_of_all (fun c hc => hnw c (List.mem_reverse.mp hc)),
      List.reverse_reverse]

theorem foldl_digitStep_replicate_zero (k : Nat) :
    (List.replicate k '0').foldl digitStep 0 = 0 := by
  induction k with
  | zero => rfl
  | succ m ih => simpa [List.replicate_succ, digitStep] using ih

theorem foldl_digitStep_natDigits (n : Nat) :
    (natDigits n).foldl digitStep 0 = n := by
  induction n using Nat.strong_induction_on with
  | _ n ih =>
      rw [natDigits_eq]
      by_cases hn : n < 10
      · simp only [if_pos hn, List.foldl_cons, List.foldl_nil, digitStep,
          digitChar_toNat hn]
        omega
      · simp only [if_neg hn, List.foldl_append, List.foldl_cons, List.foldl_nil]
        rw [ih (n / 10) (Nat.div_lt_self (by omega) (by omega))]
        simp only [digitStep, digitChar_toNat (Nat.mod_lt n (by omega))]
        omega

theorem pyInt?_of_all_digit {l : Str} (hne : l ≠ [])
    (h : ∀ c ∈ l, c.isDigit = true) :
    pyInt? l = some (l.foldl digitStep 0) := by
  simp only [pyInt?]
  rw [pyStrip_of_all_digit h]
  have hif : (if l.head? = some '+' then l.tail else l) = l := by
    cases l with
    | nil => rfl
    | cons c cs =>
        rw [if_neg]
        simp only [List.head?_cons, Option.some.injEq]
        exact isDigit_ne_plus (h c (List.mem_cons_self c cs))
  rw [hif]
  have hc : (!l.isEmpty && l.all Char.isDigit) = true := by
    rw [Bool.and_eq_true]
    refine ⟨?_, ?_⟩
    · cases l with
      | nil => exact absurd rfl hne
      | cons x xs => rfl
    · rw [List.all_eq_true]; exact h
  rw [if_pos hc]

theorem pyInt?_pad4 (n : Nat) : pyInt? (pad4 n) = some n := by
  have hne : pad4 n ≠ [] := by
    simp only [pad4]
    intro hc
    have hlen := congrArg List.length hc
    simp only [List.length_append, List.length_nil] at hlen
    exact natDigits_ne_nil n (List.length_eq_zero.mp (by omega))
  rw [pyInt?_of_all_digit hne (pad4_all_digit n)]
  simp only [pad4, List.foldl_append, foldl_digitStep_replicate_zero,
    foldl_digitStep_natDigits]

end SeqGen


namespace SeqGen

/-! ## Suffix extraction and the max-id scan -/

theorem takeWhile_append_of_all {p : Char → Bool} {l : Str} (l' : Str)
    (h : ∀ c ∈ l, p c = true) :
    (l ++ l').takeWhile p = l ++ l'.takeWhile p := by
  induction l with
  | nil => rfl
  | cons x xs ih =>
      rw [List.cons_append, List.takeWhile_cons,
        if_pos (h x (List.mem_cons_self x xs)),
        ih (fun c hc => h c (List.mem_cons_of_mem x hc)), List.cons_append]

theorem lastPart_append (xs ds : Str) (h : ∀ c ∈ ds, c ≠ '-') :
    lastPart (xs ++ '-' :: ds) = ds := by
  unfold lastPart
  rw [List.reverse_append, List.reverse_cons, List.append_assoc]
  rw [takeWhile_append_of_all (['-'] ++ xs.reverse)
    (fun c hc => by
      simp only [decide_eq_true_eq]
      exact h c (List.mem_reverse.mp hc))]
  rw [List.singleton_append, List.takeWhile_cons, if_neg (by simp),
    List.append_nil, List.reverse_reverse]

theorem pad4_no_dash (n : Nat) : ∀ c ∈ pad4 n, c ≠ '-' :=
  fun c hc => isDigit_ne_dash (pad4_all_digit n c hc)

theorem isPrefixOf_append_self (l r : Str) : l.isPrefixOf (l ++ r) = true :=
  List.isPrefixOf_iff_prefix.mpr (List.prefix_append l r)

theorem foldl_latestStep_some :
    ∀ (l : List SeqRow) (acc : Option SeqRow) (m : SeqRow),
      l.foldl latestStep acc = some m → acc = some m ∨ m ∈ l := by
  intro l
  induction l with
  | nil => intro acc m h; exact Or.inl h
  | cons x xs ih =>
      intro acc m h
      rcases ih (latestStep acc x) m h with h1 | h1
      · cases acc with
        | none =>
            simp only [latestStep] at h1
            injection h1 with h1
            exact Or.inr (h1 ▸ List.mem_cons_self x xs)
        | some a =>
            simp only [latestStep] at h1
            by_cases hlt : a.id < x.id
            · rw [if_pos hlt] at h1
              injection h1 with h1
              exact Or.inr (h1 ▸ List.mem_cons_self x xs)
            · rw [if_neg hlt] at h1
              exact Or.inl h1
      · exact Or.inr (List.mem_cons_of_mem x h1)

theorem latestByIdDesc_mem {l : List SeqRow} {m : SeqRow}
    (h : latestByIdDesc l = some m) : m ∈ l := by
  rcases foldl_latestStep_some l none m h with h1 | h1
  · exact absurd h1 (by simp)
  · exact h1

theorem latestByIdDesc_append_max (l : List SeqRow) (r : SeqRow)
    (h : ∀ x ∈ l, x.id < r.id) : latestByIdDesc (l ++ [r]) = some r := by
  unfold latestByIdDesc
  rw [List.foldl_append]
  cases hm : l.foldl latestStep none with
  | none => rfl
  | some m =>
      have hmem : m ∈ l := latestByIdDesc_mem hm
      simp only [List.foldl_cons, List.foldl_nil, latestStep,
        if_pos (h m hmem)]

theorem le_foldl_max (l : List SeqRow) :
    ∀ a : Nat, a ≤ l.foldl (fun a r => max a r.id) a := by
  induction l with
  | nil => intro a; exact Nat.le_refl a
  | cons x xs ih =>
      intro a
      exact le_trans (Nat.le_max_left a x.id) (ih (max a x.id))

theorem mem_id_le_foldl_max (l : List SeqRow) :
    ∀ (a : Nat) (r : SeqRow), r ∈ l → r.id ≤ l.foldl (fun a r => max a r.id) a := by
  induction l with
  | nil => intro a r hr; cases hr
  | cons x xs ih =>
      intro a r hr
      rcases List.mem_cons.mp hr with hr | hr
      · subst hr
        exact le_trans (Nat.le_max_right a r.id) (le_foldl_max xs (max a r.id))
      · exact ih (max a x.id) r hr

theorem mem_id_le_maxId {rows : List SeqRow} {r : SeqRow} (h : r ∈ rows) :
    r.id ≤ maxId rows :=
  mem_id_le_foldl_max rows 0 r h

/-- The decisive step for sequential monotonicity: after appending a row
with a strictly greater id carrying identifier `pfx ++ pad4 k`, the next
number computed for `pfx` is `k + 1`. -/
theorem nextNumFrom_append (xs : Str) (rows : List SeqRow) (k newId : Nat)
    (hid : ∀ r ∈ rows, r.id < newId) :
    nextNumFrom (xs ++ ['-'])
      (rows ++ [⟨newId, (xs ++ ['-']) ++ pad4 k⟩]) = k + 1 := by
  have hpref : (xs ++ ['-']).isPrefixOf ((xs ++ ['-']) ++ pad4 k) = true :=
    isPrefixOf_append_self _ _
  unfold nextNumFrom
  rw [List.filter_append]
  have hsingle :
      (([⟨newId, (xs ++ ['-']) ++ pad4 k⟩] : List SeqRow).filter
        (fun r => (xs ++ ['-']).isPrefixOf r.ident)) =
        ([⟨newId, (xs ++ ['-']) ++ pad4 k⟩] : List SeqRow) := by
    have heq : xs ++ '-' :: pad4 k = (xs ++ ['-']) ++ pad4 k := by
      rw [List.append_assoc, List.singleton_append]
    have hpref' : List.isPrefixOf (xs ++ ['-']) (xs ++ '-' :: pad4 k) = true := by
      rw [heq]; exact hpref
    simp [List.filter, hpref']
  rw [hsingle]
  rw [latestByIdDesc_append_max _ _ (fun x hx =>
    hid x (List.mem_filter.mp hx).1)]
  show (match pyInt? (lastPart ((xs ++ ['-']) ++ pad4 k)) with
        | some k => k + 1
        | none => 1) = k + 1
  rw [List.append_assoc, List.singleton_append,
    lastPart_append xs (pad4 k) (pad4_no_dash k), pyInt?_pad4]

theorem one_le_nextNumFrom (pfx : Str) (rows : List SeqRow) :
    1 ≤ nextNumFrom pfx rows := by
  unfold nextNumFrom
  split
  · split
    · omega
    · omega
  · omega

theorem payPfx_eq (year : Nat) :
    payPfx year = ("PAY-".data ++ natDigits year) ++ ['-'] := by
  unfold payPfx
  rw [List.append_assoc]

theorem parse_payPfx_pad4 (year m : Nat) :
    pyInt? (lastPart (payPfx year ++ pad4 m)) = some m := by
  rw [payPfx_eq, List.append_assoc, List.singleton_append,
    lastPart_append _ _ (pad4_no_dash m), pyInt?_pad4]

theorem create_ok_shape {year : Nat} {rows rs : List SeqRow} {t : Str}
    (h : create_pay_dispute year rows = .ok (rs, t)) :
    t = payPfx year ++ pad4 (nextNumFrom (payPfx year) rows) ∧
      rs = rows ++ [⟨maxId rows + 1, t⟩] := by
  simp only [create_pay_dispute] at h
  cases hins : insertDispute rows (generate_ticket_number year rows) with
  | error e => rw [hins] at h; cases h
  | ok rs' =>
      rw [hins] at h
      injection h with h
      have h1 := congrArg Prod.fst h
      have h2 := congrArg Prod.snd h
      simp only at h1 h2
      subst h2
      refine ⟨rfl, ?_⟩
      unfold insertDispute at hins
      split at hins
      · cases hins
      · injection hins with hins
        rw [← h1, ← hins]

theorem nextNum_after_create {year : Nat} {rows rs : List SeqRow} {t : Str}
    (h : create_pay_dispute year rows = .ok (rs, t)) :
    nextNumFrom (payPfx year) rs =
      nextNumFrom (payPfx year) rows + 1 := by
  obtain ⟨ht, hrs⟩ := create_ok_shape h
  subst hrs
  subst ht
  rw [payPfx_eq]
  exact nextNumFrom_append _ rows _ _
    (fun r hr => Nat.lt_succ_of_le (mem_id_le_maxId hr))

end SeqGen

namespace SeqGen

theorem foldl_latestStep_some_isSome :
    ∀ (l : List SeqRow) (a : SeqRow), ∃ b, l.foldl latestStep (some a) = some b := by
  intro l
  induction l with
  | nil => intro a; exact ⟨a, rfl⟩
  | cons y ys ih =>
      intro a
      simp only [List.foldl_cons, latestStep]
      by_cases hlt : a.id < y.id
      · rw [if_pos hlt]; exact ih y
      · rw [if_neg hlt]; exact ih a

theorem latestByIdDesc_eq_none {l : List SeqRow}
    (h : latestByIdDesc l = none) : l = [] := by
  cases l with
  | nil => rfl
  | cons x xs =>
      obtain ⟨b, hb⟩ := foldl_latestStep_some_isSome xs x
      unfold latestByIdDesc at h
      rw [List.foldl_cons] at h
      have : latestStep none x = some x := rfl
      rw [this, hb] at h
      cases h

theorem nextFrom_eq_spec (pfx : Str) (rows : List SeqRow)
    (h : latestParsesToMax pfx rows = true) :
    nextFrom pfx rows = specNextIdentifier pfx rows := by
  unfold latestParsesToMax at h
  cases hl : latestByIdDesc (rows.filter (fun r => pfx.isPrefixOf r.ident)) with
  | none =>
      have hnil := latestByIdDesc_eq_none hl
      unfold nextFrom nextNumFrom specNextIdentifier
      rw [hnil]
      rfl
  | some r =>
      rw [hl] at h
      have hparse : pyInt? (lastPart r.ident) =
          some (maxSuffix (rows.filter (fun r => pfx.isPrefixOf r.ident))) :=
        eq_of_beq h
      have hmem : r ∈ rows.filter (fun r => pfx.isPrefixOf r.ident) :=
        latestByIdDesc_mem hl
      have hne : (rows.filter (fun r => pfx.isPrefixOf r.ident)).isEmpty = false := by
        cases hfil : rows.filter (fun r => pfx.isPrefixOf r.ident) with
        | nil => rw [hfil] at hmem; cases hmem
        | cons a as => rfl
      simp only [nextFrom, nextNumFrom, specNextIdentifier, hl, hparse, hne,
        Bool.false_eq_true, if_false]

theorem runCreates_tickets (year : Nat) :
    ∀ (n : Nat) (rows rows' : List SeqRow) (ts : List Str),
      runCreates year rows n = .ok (rows', ts) →
      ts = (List.range n).map
        (fun i => payPfx year ++ pad4 (nextNumFrom (payPfx year) rows + i)) := by
  intro n
  induction n with
  | zero =>
      intro rows rows' ts h
      simp only [runCreates] at h
      injection h with h
      have h2 := congrArg Prod.snd h
      simp only at h2
      rw [← h2]
      rfl
  | succ n ih =>
      intro rows rows' ts h
      simp only [runCreates] at h
      cases hc : create_pay_dispute year rows with
      | error e =>
          rw [hc] at h
          exact absurd h (by simp)
      | ok p =>
          rw [hc] at h
          obtain ⟨rs, t⟩ := p
          replace h :
              (match runCreates year rs n with
                | .error e => (.error e : Except Unit (List SeqRow × List Str))
                | .ok (rs', ts') => .ok (rs', t :: ts')) = .ok (rows', ts) := h
          cases hr : runCreates year rs n with
          | error e =>
              rw [hr] at h
              exact absurd h (by simp)
          | ok q =>
              rw [hr] at h
              obtain ⟨rs', ts'⟩ := q
              replace h : (Except.ok (rs', t :: ts') :
                  Except Unit (List SeqRow × List Str)) = .ok (rows', ts) := h
              injection h with h
              have h2 := congrArg Prod.snd h
              simp only at h2
              subst h2
              obtain ⟨ht, -⟩ := create_ok_shape hc
              have hnext := nextNum_after_create hc
              have hts' := ih rs rs' ts' hr
              rw [hnext] at hts'
              subst ht
              rw [hts']
              rw [List.range_succ_eq_map, List.map_cons, List.map_map]
              have hfun :
                  (fun i => payPfx year ++
                      pad4 (nextNumFrom (payPfx year) rows + 1 + i)) =
                  ((fun i => payPfx year ++
                      pad4 (nextNumFrom (payPfx year) rows + i)) ∘ Nat.succ) := by
                funext i
                simp only [Function.comp]
                congr 2
                omega
              rw [hfun, Nat.add_zero]

end SeqGen

namespace SeqGen

/-- C2 counterexample: with rows inserted out of suffix order (id 1 carries
suffix 0005, id 2 carries suffix 0002), `generate_ticket_number` continues
from the *latest-by-id* row and returns `PAY-2026-0003`, not one plus the
numerically highest stored suffix (`PAY-2026-0006`) as the claim states. -/
theorem c2_counterexample :
    generate_ticket_number 2026
        [⟨1, "PAY-2026-0005".data⟩, ⟨2, "PAY-2026-0002".data⟩] =
      "PAY-2026-0003".data ∧
    specNextIdentifier (payPfx 2026)
        [⟨1, "PAY-2026-0005".data⟩, ⟨2, "PAY-2026-0002".data⟩] =
      "PAY-2026-0006".data ∧
    ("PAY-2026-0003".data : Str) ≠ "PAY-2026-0006".data :=
  ⟨rfl, rfl, by decide⟩

/-- C2 (amended): `generate_ticket_number` / `generate_doc_id` return
`{prefix}-{year}-` followed by one plus the numeric suffix of the row with
the greatest primary key among matching rows (1 when none exists),
zero-padded to four digits; this agrees with the spec's
highest-numeric-suffix description exactly when that latest-by-id row
carries the greatest suffix — in particular for stores grown only by
sequential inserts. -/
theorem c2_latest_agrees_with_highest (year : Nat) (doc_type : Str)
    (payRows docRows : List SeqRow)
    (h1 : latestParsesToMax (payPfx year) payRows = true)
    (h2 : latestParsesToMax (docPfx doc_type year) docRows = true) :
    generate_ticket_number year payRows =
      specNextIdentifier (payPfx year) payRows ∧
    generate_doc_id doc_type year docRows =
      specNextIdentifier (docPfx doc_type year) docRows :=
  ⟨nextFrom_eq_spec _ _ h1, nextFrom_eq_spec _ _ h2⟩

/-- C2 witness: the amended theorem applied to a store whose latest row is
also the numerically highest (`PAY-2026-0007`) and to an empty document
store. -/
theorem c2_witness :
    generate_ticket_number 2026 [⟨1, "PAY-2026-0007".data⟩] =
      specNextIdentifier (payPfx 2026) [⟨1, "PAY-2026-0007".data⟩] ∧
    generate_doc_id "IR".data 2026 [] =
      specNextIdentifier (docPfx "IR".data 2026) [] :=
  c2_latest_agrees_with_highest 2026 "IR".data [⟨1, "PAY-2026-0007".data⟩] []
    (by rfl) (by rfl)

/-- C3: the racy schedule the claim asserts is handled.  Two concurrent
`create_pay_dispute` calls both run `generate_ticket_number` against the
same (here: empty) store and compute the identical ticket `PAY-2026-0001`;
the first commit succeeds, and the second commit hits the unique constraint
and surfaces the failure — `create_pay_dispute` contains no
retry-on-conflict, contradicting the claim (and the spec's §5/§7 retry
requirement, which the code was meant to satisfy). -/
theorem c3_race_conflict_propagates :
    generate_ticket_number 2026 [] = "PAY-2026-0001".data ∧
    insertDispute [] (generate_ticket_number 2026 []) =
      .ok [⟨1, "PAY-2026-0001".data⟩] ∧
    insertDispute [⟨1, "PAY-2026-0001".data⟩] (generate_ticket_number 2026 []) =
      .error () :=
  ⟨rfl, rfl, rfl⟩

/-- C7: when the latest matching row's trailing token fails to parse as an
integer (`except ValueError`), both generators fall back to 1 and return
`{prefix}-{year}-0001` instead of propagating the parse failure. -/
theorem c7_malformed_suffix_restarts (year : Nat) (doc_type : Str)
    (payRows docRows : List SeqRow) (r1 r2 : SeqRow)
    (h1 : latestByIdDesc
        (payRows.filter (fun r => (payPfx year).isPrefixOf r.ident)) = some r1)
    (h2 : pyInt? (lastPart r1.ident) = none)
    (h3 : latestByIdDesc
        (docRows.filter (fun r => (docPfx doc_type year).isPrefixOf r.ident)) =
        some r2)
    (h4 : pyInt? (lastPart r2.ident) = none) :
    generate_ticket_number year payRows = payPfx year ++ pad4 1 ∧
    generate_doc_id doc_type year docRows = docPfx doc_type year ++ pad4 1 := by
  constructor
  · simp only [generate_ticket_number, nextFrom, nextNumFrom, h1, h2]
  · simp only [generate_doc_id, nextFrom, nextNumFrom, h3, h4]

/-- C7 witness: a store corrupted to `PAY-2026-abcd` (resp. `IR-2026-XY`)
restarts the sequence at `PAY-2026-0001` (resp. `IR-2026-0001`). -/
theorem c7_witness :
    generate_ticket_number 2026 [⟨1, "PAY-2026-abcd".data⟩] =
      "PAY-2026-0001".data ∧
    generate_doc_id "IR".data 2026 [⟨1, "IR-2026-XY".data⟩] =
      "IR-2026-0001".data := by
  have h := c7_malformed_suffix_restarts 2026 "IR".data
    [⟨1, "PAY-2026-abcd".data⟩] [⟨1, "IR-2026-XY".data⟩]
    ⟨1, "PAY-2026-abcd".data⟩ ⟨1, "IR-2026-XY".data⟩ rfl rfl rfl rfl
  exact ⟨h.1.trans (by rfl), h.2.trans (by rfl)⟩

/-- C8: any `n` sequential `create_pay_dispute` calls that all commit
successfully mint tickets whose numeric suffixes are `k, k+1, …, k+n-1`
for some `k ≥ 1` — strictly increasing by exactly one with no gaps. -/
theorem c8_sequential_increments (year n : Nat) (rows rows' : List SeqRow)
    (ts : List Str) (h : runCreates year rows n = .ok (rows', ts)) :
    ∃ k, 1 ≤ k ∧
      ts = (List.range n).map (fun i => payPfx year ++ pad4 (k + i)) ∧
      ts.map (fun s => pyInt? (lastPart s)) =
        (List.range n).map (fun i => some (k + i)) := by
  refine ⟨nextNumFrom (payPfx year) rows, one_le_nextNumFrom _ _,
    runCreates_tickets year n rows rows' ts h, ?_⟩
  rw [runCreates_tickets year n rows rows' ts h, List.map_map]
  have hfun : ((fun s => pyInt? (lastPart s)) ∘
      (fun i => payPfx year ++ pad4 (nextNumFrom (payPfx year) rows + i))) =
      (fun i => some (nextNumFrom (payPfx year) rows + i)) := by
    funext i
    exact parse_payPfx_pad4 year _
  rw [hfun]

/-- C8 witness: three sequential creates from an empty store mint
`PAY-2026-0001`, `PAY-2026-0002`, `PAY-2026-0003`. -/
theorem c8_witness :
    ∃ k, 1 ≤ k ∧
      (["PAY-2026-0001".data, "PAY-2026-0002".data, "PAY-2026-0003".data] :
          List Str) =
        (List.range 3).map (fun i => payPfx 2026 ++ pad4 (k + i)) ∧
      (["PAY-2026-0001".data, "PAY-2026-0002".data, "PAY-2026-0003".data] :
          List Str).map (fun s => pyInt? (lastPart s)) =
        (List.range 3).map (fun i => some (k + i)) :=
  c8_sequential_increments 2026 3 []
    [⟨1, "PAY-2026-0001".data⟩, ⟨2, "PAY-2026-0002".data⟩,
     ⟨3, "PAY-2026-0003".data⟩]
    ["PAY-2026-0001".data, "PAY-2026-0002".data, "PAY-2026-0003".data]
    (by rfl)

end SeqGen

namespace Rbac

/-! ## Association-list and pairwise lemmas -/

theorem aget_aset_same {α : Type} (d : List (String × α)) (k : String) (v : α) :
    aget (aset d k v) k = some v := by
  induction d with
  | nil => simp [aset, aget]
  | cons x r ih =>
      obtain ⟨k', v'⟩ := x
      by_cases h : k' = k
      · simp [aset, aget, h]
      · simp [aset, aget, h, ih]

theorem aget_aset_ne {α : Type} (d : List (String × α)) (k k' : String) (v : α)
    (h : k ≠ k') : aget (aset d k v) k' = aget d k' := by
  induction d with
  | nil => simp [aset, aget, h]
  | cons x r ih =>
      obtain ⟨k0, v0⟩ := x
      by_cases h0 : k0 = k
      · subst h0
        simp [aset, aget, h]
      · by_cases h1 : k0 = k'
        · simp [aset, aget, h0, h1, Ne.symm h]
        · simp [aset, aget, h0, h1, ih]

theorem pairwiseB_iff {α : Type} (p : α → α → Bool) (l : List α) :
    pairwiseB p l = true ↔ List.Pairwise (fun a b => p a b = true) l := by
  induction l with
  | nil => simp [pairwiseB]
  | cons x r ih =>
      simp only [pairwiseB, Bool.and_eq_true, List.pairwise_cons, ih,
        List.all_eq_true]

theorem pyOr_b (a b : Bool) : pyOr (.b a) b = .b (a || b) := by
  cases a <;> rfl

end Rbac

namespace Rbac

/-! ## Phase characterization for `get_user_permissions` -/

theorem rolePhase_append (db : Db) (l1 l2 : List RoleModulePermission) :
    ∀ acc, rolePhase db (l1 ++ l2) acc = rolePhase db l2 (rolePhase db l1 acc) := by
  induction l1 with
  | nil => intro acc; rfl
  | cons p rest ih =>
      intro acc
      simp only [List.cons_append, rolePhase]
      cases hm : db.modules.find? (fun m => m.id == p.module_id) with
      | none => exact ih _
      | some m => exact ih _

theorem rolePhase_no_match (db : Db) (rows : List RoleModulePermission)
    (k : String) :
    ∀ acc, (∀ p ∈ rows, roleRowName db p ≠ some k) →
      aget (rolePhase db rows acc) k = aget acc k := by
  induction rows with
  | nil => intro acc _; rfl
  | cons p rest ih =>
      intro acc h
      simp only [rolePhase]
      cases hm : db.modules.find? (fun m => m.id == p.module_id) with
      | none => exact ih acc (fun q hq => h q (List.mem_cons_of_mem p hq))
      | some m =>
          have hname : m.name ≠ k := by
            intro hc
            exact h p (List.mem_cons_self p rest)
              (by simp [roleRowName, hm, hc])
          rw [ih _ (fun q hq => h q (List.mem_cons_of_mem p hq)),
            aget_aset_ne _ _ _ _ hname]

theorem rolePhase_last (db : Db) (l1 l2 : List RoleModulePermission)
    (p : RoleModulePermission) (m : Module) (acc : PermDict)
    (hm : db.modules.find? (fun m' => m'.id == p.module_id) = some m)
    (hl2 : ∀ q ∈ l2, roleRowName db q ≠ some m.name) :
    aget (rolePhase db (l1 ++ p :: l2) acc) m.name = some (entryOfRole p m) := by
  rw [rolePhase_append]
  show aget (rolePhase db (p :: l2) (rolePhase db l1 acc)) m.name = _
  simp only [rolePhase, hm]
  rw [rolePhase_no_match db l2 m.name _ hl2, aget_aset_same]

theorem customPhase_append (db : Db) (l1 l2 : List UserModulePermission) :
    ∀ acc, customPhase db (l1 ++ l2) acc =
      customPhase db l2 (customPhase db l1 acc) := by
  induction l1 with
  | nil => intro acc; rfl
  | cons p rest ih =>
      intro acc
      simp only [List.cons_append, customPhase]
      exact ih _

theorem customStep_no_module (db : Db) (acc : PermDict)
    (p : UserModulePermission)
    (hm : db.modules.find? (fun m => m.id == p.module_id) = none) :
    customStep db acc p = acc := by
  simp only [customStep, hm]

theorem customStep_aget_other (db : Db) (acc : PermDict)
    (p : UserModulePermission) (m : Module) (k : String)
    (hm : db.modules.find? (fun m' => m'.id == p.module_id) = some m)
    (hk : m.name ≠ k) :
    aget (customStep db acc p) k = aget acc k := by
  simp only [customStep, hm]
  rw [aget_aset_ne _ _ _ _ hk]
  by_cases hnone : (aget acc m.name).isNone
  · rw [if_pos hnone, aget_aset_ne _ _ _ _ hk]
  · rw [if_neg hnone]

theorem customStep_aget_same (db : Db) (acc : PermDict)
    (p : UserModulePermission) (m : Module)
    (hm : db.modules.find? (fun m' => m'.id == p.module_id) = some m) :
    aget (customStep db acc p) m.name =
      some (customEntry (aget acc m.name) p m) := by
  simp only [customStep, hm]
  cases hacc : aget acc m.name with
  | none =>
      have hred : (if (none : Option Entry).isNone = true
          then aset acc m.name [("module", PyVal.mod m)] else acc) =
          aset acc m.name [("module", PyVal.mod m)] := rfl
      rw [hred]
      rw [aget_aset_same acc m.name [("module", PyVal.mod m)], aget_aset_same]
      rfl
  | some e =>
      have hred : (if (some e).isNone = true
          then aset acc m.name [("module", PyVal.mod m)] else acc) = acc := rfl
      rw [hred]
      rw [hacc, aget_aset_same]
      rfl

theorem customPhase_no_match (db : Db) (rows : List UserModulePermission)
    (k : String) :
    ∀ acc, (∀ p ∈ rows, userRowName db p ≠ some k) →
      aget (customPhase db rows acc) k = aget acc k := by
  induction rows with
  | nil => intro acc _; rfl
  | cons p rest ih =>
      intro acc h
      simp only [customPhase]
      rw [ih _ (fun q hq => h q (List.mem_cons_of_mem p hq))]
      cases hm : db.modules.find? (fun m => m.id == p.module_id) with
      | none => rw [customStep_no_module db acc p hm]
      | some m =>
          have hname : m.name ≠ k := by
            intro hc
            exact h p (List.mem_cons_self p rest)
              (by simp [userRowName, hm, hc])
          rw [customStep_aget_other db acc p m k hm hname]

theorem customPhase_split (db : Db) (l1 l2 : List UserModulePermission)
    (p : UserModulePermission) (m : Module) (acc : PermDict)
    (hm : db.modules.find? (fun m' => m'.id == p.module_id) = some m)
    (hl1 : ∀ q ∈ l1, userRowName db q ≠ some m.name)
    (hl2 : ∀ q ∈ l2, userRowName db q ≠ some m.name) :
    aget (customPhase db (l1 ++ p :: l2) acc) m.name =
      some (customEntry (aget acc m.name) p m) := by
  rw [customPhase_append]
  show aget (customPhase db (p :: l2) (customPhase db l1 acc)) m.name = _
  simp only [customPhase]
  rw [customPhase_no_match db l2 m.name _ hl2,
    customStep_aget_same db _ p m hm,
    customPhase_no_match db l1 m.name acc hl1]

end Rbac

namespace Rbac

/-! ## Schema invariants: uniqueness consequences -/

theorem wellFormed_parts (db : Db) (hwf : wellFormed db = true) :
    pairwiseB (fun m1 m2 => m1.id != m2.id && m1.name != m2.name)
      db.modules = true ∧
    pairwiseB
      (fun p q => !(p.role_id == q.role_id && p.module_id == q.module_id))
      db.role_perms = true ∧
    pairwiseB
      (fun p q => !(p.user_id == q.user_id && p.module_id == q.module_id))
      db.user_perms = true := by
  simp only [wellFormed, Bool.and_eq_true] at hwf
  exact ⟨hwf.1.1, hwf.1.2, hwf.2⟩

theorem modules_pairwise_prop (db : Db) (hwf : wellFormed db = true) :
    List.Pairwise (fun m1 m2 : Module => m1.id ≠ m2.id ∧ m1.name ≠ m2.name)
      db.modules := by
  have h := (pairwiseB_iff _ _).mp (wellFormed_parts db hwf).1
  exact h.imp (fun hab => by
    simp only [Bool.and_eq_true, bne_iff_ne] at hab
    exact hab)

theorem module_name_inj (db : Db) (hwf : wellFormed db = true)
    {m1 m2 : Module} (h1 : m1 ∈ db.modules) (h2 : m2 ∈ db.modules)
    (h : m1.name = m2.name) : m1 = m2 := by
  by_contra hne
  exact ((modules_pairwise_prop db hwf).forall
    (fun a b hab => ⟨Ne.symm hab.1, Ne.symm hab.2⟩) h1 h2 hne).2 h

theorem module_id_inj (db : Db) (hwf : wellFormed db = true)
    {m1 m2 : Module} (h1 : m1 ∈ db.modules) (h2 : m2 ∈ db.modules)
    (h : m1.id = m2.id) : m1 = m2 := by
  by_contra hne
  exact ((modules_pairwise_prop db hwf).forall
    (fun a b hab => ⟨Ne.symm hab.1, Ne.symm hab.2⟩) h1 h2 hne).1 h

theorem moduleByName_mem {db : Db} {k : String} {m : Module}
    (h : moduleByName db k = some m) : m ∈ db.modules ∧ m.name = k := by
  refine ⟨List.mem_of_find?_eq_some h, ?_⟩
  have := List.find?_some h
  simpa using this

theorem moduleByName_self (db : Db) (hwf : wellFormed db = true)
    {m : Module} (hm : m ∈ db.modules) : moduleByName db m.name = some m := by
  cases hfind : moduleByName db m.name with
  | none =>
      exact absurd (by simp : (m.name == m.name) = true)
        (List.find?_eq_none.mp hfind m hm)
  | some m' =>
      obtain ⟨hmem, hname⟩ := moduleByName_mem hfind
      rw [module_name_inj db hwf hmem hm hname]

theorem moduleById_self (db : Db) (hwf : wellFormed db = true)
    {m : Module} (hm : m ∈ db.modules) :
    db.modules.find? (fun m' => m'.id == m.id) = some m := by
  cases hfind : db.modules.find? (fun m' => m'.id == m.id) with
  | none =>
      exact absurd (by simp : (m.id == m.id) = true)
        (List.find?_eq_none.mp hfind m hm)
  | some m' =>
      have hmem := List.mem_of_find?_eq_some hfind
      have hid : m'.id = m.id := by simpa using List.find?_some hfind
      rw [module_id_inj db hwf hmem hm hid]

theorem roleRowName_some {db : Db} {p : RoleModulePermission} {k : String}
    (h : roleRowName db p = some k) :
    ∃ m', db.modules.find? (fun m => m.id == p.module_id) = some m' ∧
      m'.name = k := by
  unfold roleRowName at h
  cases hfind : db.modules.find? (fun m => m.id == p.module_id) with
  | none => rw [hfind] at h; cases h
  | some m' =>
      rw [hfind] at h
      injection h with h
      exact ⟨m', rfl, h⟩

theorem userRowName_some {db : Db} {p : UserModulePermission} {k : String}
    (h : userRowName db p = some k) :
    ∃ m', db.modules.find? (fun m => m.id == p.module_id) = some m' ∧
      m'.name = k := by
  unfold userRowName at h
  cases hfind : db.modules.find? (fun m => m.id == p.module_id) with
  | none => rw [hfind] at h; cases h
  | some m' =>
      rw [hfind] at h
      injection h with h
      exact ⟨m', rfl, h⟩

theorem no_role_mapper_of_no_module (db : Db) (k : String)
    (hmod : moduleByName db k = none) (p : RoleModulePermission) :
    roleRowName db p ≠ some k := by
  intro hc
  obtain ⟨m', hfind, hname⟩ := roleRowName_some hc
  exact List.find?_eq_none.mp hmod m' (List.mem_of_find?_eq_some hfind)
    (by simp [hname])

theorem no_user_mapper_of_no_module (db : Db) (k : String)
    (hmod : moduleByName db k = none) (p : UserModulePermission) :
    userRowName db p ≠ some k := by
  intro hc
  obtain ⟨m', hfind, hname⟩ := userRowName_some hc
  exact List.find?_eq_none.mp hmod m' (List.mem_of_find?_eq_some hfind)
    (by simp [hname])

theorem role_mapper_module_id (db : Db) (hwf : wellFormed db = true)
    {p : RoleModulePermission} {m : Module} (hm : m ∈ db.modules)
    (hc : roleRowName db p = some m.name) : p.module_id = m.id := by
  obtain ⟨m', hfind, hname⟩ := roleRowName_some hc
  have hmem := List.mem_of_find?_eq_some hfind
  have hid : m'.id = p.module_id := by simpa using List.find?_some hfind
  rw [← hid, module_name_inj db hwf hmem hm hname]

theorem user_mapper_module_id (db : Db) (hwf : wellFormed db = true)
    {p : UserModulePermission} {m : Module} (hm : m ∈ db.modules)
    (hc : userRowName db p = some m.name) : p.module_id = m.id := by
  obtain ⟨m', hfind, hname⟩ := userRowName_some hc
  have hmem := List.mem_of_find?_eq_some hfind
  have hid : m'.id = p.module_id := by simpa using List.find?_some hfind
  rw [← hid, module_name_inj db hwf hmem hm hname]

theorem pairwise_after {α : Type} {R : α → α → Prop} {L1 L2 : List α} {p : α}
    (hp : List.Pairwise R (L1 ++ p :: L2)) : ∀ q ∈ L2, R p q :=
  fun q hq =>
    (List.pairwise_cons.mp
      (hp.sublist (List.sublist_append_right L1 (p :: L2)))).1 q hq

end Rbac


namespace Rbac

/-! ## The resolved map, characterized -/

theorem role_pairwise_prop (db : Db) (hwf : wellFormed db = true) :
    List.Pairwise
      (fun a b : RoleModulePermission =>
        ¬(a.role_id = b.role_id ∧ a.module_id = b.module_id))
      db.role_perms := by
  have h := (pairwiseB_iff _ _).mp (wellFormed_parts db hwf).2.1
  refine h.imp (fun {a b} hab hcon => ?_)
  have hc : (a.role_id == b.role_id && a.module_id == b.module_id) = true := by
    simp [hcon.1, hcon.2]
  simp [hc] at hab

theorem user_pairwise_prop (db : Db) (hwf : wellFormed db = true) :
    List.Pairwise
      (fun a b : UserModulePermission =>
        ¬(a.user_id = b.user_id ∧ a.module_id = b.module_id))
      db.user_perms := by
  have h := (pairwiseB_iff _ _).mp (wellFormed_parts db hwf).2.2
  refine h.imp (fun {a b} hab hcon => ?_)
  have hc : (a.user_id == b.user_id && a.module_id == b.module_id) = true := by
    simp [hcon.1, hcon.2]
  simp [hc] at hab

theorem aget_basePerms (db : Db) (user : User) (k : String)
    (hwf : wellFormed db = true) :
    aget (basePerms db user) k =
      (match moduleByName db k with
      | none => none
      | some m =>
          match roleRowFor db user m with
          | some p => some (entryOfRole p m)
          | none => none) := by
  cases hur : userRole? db user with
  | none =>
      have hbase : basePerms db user = [] := by
        unfold basePerms; rw [hur]
      rw [hbase]
      cases hmod : moduleByName db k with
      | none => rfl
      | some m => simp [roleRowFor, hur, aget]
  | some rid =>
      have hbase : basePerms db user =
          rolePhase db (db.role_perms.filter (fun p => p.role_id == rid)) [] := by
        unfold basePerms; rw [hur]
      rw [hbase]
      cases hmod : moduleByName db k with
      | none =>
          rw [rolePhase_no_match db _ k []
            (fun p _ => no_role_mapper_of_no_module db k hmod p)]
          rfl
      | some m =>
          obtain ⟨hmmem, hname⟩ := moduleByName_mem hmod
          subst hname
          cases hrow : db.role_perms.find?
              (fun q => q.role_id == rid && q.module_id == m.id) with
          | none =>
              rw [rolePhase_no_match db _ m.name [] ?hnomap]
              case hnomap =>
                intro q hq hc
                have hqmem := (List.mem_filter.mp hq).1
                have hqrid : q.role_id = rid := by
                  simpa using (List.mem_filter.mp hq).2
                have hqmid := role_mapper_module_id db hwf hmmem hc
                exact absurd (by simp [hqrid, hqmid])
                  (List.find?_eq_none.mp hrow q hqmem)
              simp [roleRowFor, hur, hrow, aget]
          | some p =>
              obtain ⟨hpred, L1, L2, hsplit, hL1⟩ := List.find?_eq_some.mp hrow
              have hprid : p.role_id = rid := by
                simp only [Bool.and_eq_true, beq_iff_eq] at hpred
                exact hpred.1
              have hpmid : p.module_id = m.id := by
                simp only [Bool.and_eq_true, beq_iff_eq] at hpred
                exact hpred.2
              have hfilter :
                  db.role_perms.filter (fun q => q.role_id == rid) =
                    L1.filter (fun q => q.role_id == rid) ++ p ::
                      L2.filter (fun q => q.role_id == rid) := by
                rw [hsplit, List.filter_append, List.filter_cons,
                  if_pos (by simp [hprid])]
              have hl2 : ∀ q ∈ L2.filter (fun q => q.role_id == rid),
                  roleRowName db q ≠ some m.name := by
                intro q hq hc
                have hqL2 := (List.mem_filter.mp hq).1
                have hqrid : q.role_id = rid := by
                  simpa using (List.mem_filter.mp hq).2
                have hqmid := role_mapper_module_id db hwf hmmem hc
                have hpq := pairwise_after (hsplit ▸ role_pairwise_prop db hwf) q hqL2
                exact hpq ⟨hprid.trans hqrid.symm, hpmid.trans hqmid.symm⟩
              have hm : db.modules.find? (fun m' => m'.id == p.module_id) =
                  some m := by
                simp only [hpmid]
                exact moduleById_self db hwf hmmem
              rw [hfilter, rolePhase_last db _ _ p m [] hm hl2]
              simp [roleRowFor, hur, hrow]

theorem customEntry_none_eval (q : UserModulePermission) (m : Module) :
    customEntry none q m = entryOfOverride q m := rfl

theorem customEntry_role_eval (p : RoleModulePermission)
    (q : UserModulePermission) (m : Module) :
    customEntry (some (entryOfRole p m)) q m = entryMerged p q m := by
  cases p with
  | mk rid mid pv pc pe pd =>
      cases pv <;> cases pc <;> cases pe <;> cases pd <;> rfl

/-- The resolved permission map agrees, at every module name, with the
closed form determined by the (at most one) role row and override row. -/
theorem aget_perms (db : Db) (user : User) (k : String)
    (hwf : wellFormed db = true) :
    aget (get_user_permissions db user) k = resolvedEntry db user k := by
  have hperm : get_user_permissions db user =
      customPhase db (db.user_perms.filter (fun p => p.user_id == user.id))
        (basePerms db user) := rfl
  rw [hperm]
  cases hmod : moduleByName db k with
  | none =>
      rw [customPhase_no_match db _ k _
        (fun p _ => no_user_mapper_of_no_module db k hmod p)]
      rw [aget_basePerms db user k hwf]
      simp [resolvedEntry, hmod]
  | some m =>
      obtain ⟨hmmem, hname⟩ := moduleByName_mem hmod
      subst hname
      cases hrow : db.user_perms.find?
          (fun q => q.user_id == user.id && q.module_id == m.id) with
      | none =>
          rw [customPhase_no_match db _ m.name _ ?hnomap]
          case hnomap =>
            intro q hq hc
            have hqmem := (List.mem_filter.mp hq).1
            have hquid : q.user_id = user.id := by
              simpa using (List.mem_filter.mp hq).2
            have hqmid := user_mapper_module_id db hwf hmmem hc
            exact absurd (by simp [hquid, hqmid])
              (List.find?_eq_none.mp hrow q hqmem)
          rw [aget_basePerms db user m.name hwf]
          simp only [resolvedEntry, hmod]
          have hur : userRowFor db user m = none := hrow
          rw [hur]
          cases hrr : roleRowFor db user m <;> simp
      | some q =>
          obtain ⟨hpred, L1, L2, hsplit, hL1⟩ := List.find?_eq_some.mp hrow
          have hquid : q.user_id = user.id := by
            simp only [Bool.and_eq_true, beq_iff_eq] at hpred
            exact hpred.1
          have hqmid : q.module_id = m.id := by
            simp only [Bool.and_eq_true, beq_iff_eq] at hpred
            exact hpred.2
          have hfilter :
              db.user_perms.filter (fun p => p.user_id == user.id) =
                L1.filter (fun p => p.user_id == user.id) ++ q ::
                  L2.filter (fun p => p.user_id == user.id) := by
            rw [hsplit, List.filter_append, List.filter_cons,
              if_pos (by simp [hquid])]
          have hl1 : ∀ x ∈ L1.filter (fun p => p.user_id == user.id),
              userRowName db x ≠ some m.name := by
            intro x hx hc
            have hxL1 := (List.mem_filter.mp hx).1
            have hxuid : x.user_id = user.id := by
              simpa using (List.mem_filter.mp hx).2
            have hxmid := user_mapper_module_id db hwf hmmem hc
            have := hL1 x hxL1
            rw [Bool.not_eq_eq_eq_not, Bool.not_true] at this
            exact absurd (by simp [hxuid, hxmid] :
                ((fun y => y.user_id == user.id && y.module_id == m.id) x) = true)
              (by simp [this])
          have hl2 : ∀ x ∈ L2.filter (fun p => p.user_id == user.id),
              userRowName db x ≠ some m.name := by
            intro x hx hc
            have hxL2 := (List.mem_filter.mp hx).1
            have hxuid : x.user_id = user.id := by
              simpa using (List.mem_filter.mp hx).2
            have hxmid := user_mapper_module_id db hwf hmmem hc
            have hpq := pairwise_after (hsplit ▸ user_pairwise_prop db hwf) x hxL2
            exact hpq ⟨hquid.trans hxuid.symm, hqmid.trans hxmid.symm⟩
          have hmfind : db.modules.find? (fun m' => m'.id == q.module_id) =
              some m := by
            simp only [hqmid]
            exact moduleById_self db hwf hmmem
          rw [hfilter, customPhase_split db _ _ q m _ hmfind hl1 hl2]
          rw [aget_basePerms db user m.name hwf]
          simp only [resolvedEntry, hmod]
          have hur : userRowFor db user m = some q := hrow
          rw [hur]
          cases hrr : roleRowFor db user m with
          | none => rw [customEntry_none_eval]
          | some p => rw [customEntry_role_eval]

end Rbac

namespace Rbac

/-! ## `check_permission` against the spec formula -/

theorem check_eq (db : Db) (user : User) (k : String) (a : Action)
    (hwf : wellFormed db = true) :
    check_permission db user k a.key =
      .b (roleDefault db user k a || overrideFlag db user k a) := by
  cases hmod : moduleByName db k with
  | none =>
      simp only [check_permission, aget_perms db user k hwf, resolvedEntry,
        roleDefault, overrideFlag, hmod]
      rfl
  | some m =>
      cases hrr : roleRowFor db user m with
      | none =>
          cases hur : userRowFor db user m with
          | none =>
              simp only [check_permission, aget_perms db user k hwf,
                resolvedEntry, roleDefault, overrideFlag, hmod, hrr, hur]
              rfl
          | some q =>
              simp only [check_permission, aget_perms db user k hwf,
                resolvedEntry, roleDefault, overrideFlag, hmod, hrr, hur]
              cases a <;> rfl
      | some p =>
          cases hur : userRowFor db user m with
          | none =>
              simp only [check_permission, aget_perms db user k hwf,
                resolvedEntry, roleDefault, overrideFlag, hmod, hrr, hur]
              cases a <;> simp [entryGetD, aget, entryOfRole,
                RoleModulePermission.flag, Action.key]
          | some q =>
              simp only [check_permission, aget_perms db user k hwf,
                resolvedEntry, roleDefault, overrideFlag, hmod, hrr, hur]
              cases a <;> rfl

theorem entry_flag_eq (db : Db) (user : User) (k : String) (a : Action)
    (e : Entry) (hwf : wellFormed db = true)
    (h : aget (get_user_permissions db user) k = some e) :
    entryGetD e a.key =
      .b (roleDefault db user k a || overrideFlag db user k a) := by
  have hch : check_permission db user k a.key = entryGetD e a.key := by
    simp [check_permission, h]
  rw [← hch, check_eq db user k a hwf]

theorem absent_flags_false (db : Db) (user : User) (k : String) (a : Action)
    (hwf : wellFormed db = true)
    (h : aget (get_user_permissions db user) k = none) :
    roleDefault db user k a = false ∧ overrideFlag db user k a = false := by
  rw [aget_perms db user k hwf] at h
  unfold resolvedEntry at h
  cases hmod : moduleByName db k with
  | none => simp [roleDefault, overrideFlag, hmod]
  | some m =>
      simp only [hmod] at h
      cases hrr : roleRowFor db user m with
      | some p =>
          cases hur : userRowFor db user m <;> simp [hrr, hur] at h
      | none =>
          cases hur : userRowFor db user m with
          | some q => simp [hrr, hur] at h
          | none => simp [roleDefault, overrideFlag, hmod, hrr, hur]

/-! ## Claims C1 and C4 -/

/-- C1: for every user, module name and action flag, the effective
permission resolved by `get_user_permissions` is
`role_default[module][flag] OR custom_override[module][flag]`, with an
absent role row or override row contributing `false`; `check_permission`
returns exactly that OR, so it is `true` whenever either side is `true`
and `false` only when both are `false` or absent. -/
theorem c1_or_merge (db : Db) (user : User) (k : String) (a : Action)
    (hwf : wellFormed db = true) :
    check_permission db user k a.key =
      .b (roleDefault db user k a || overrideFlag db user k a) ∧
    (∀ e, aget (get_user_permissions db user) k = some e →
        entryGetD e a.key =
          .b (roleDefault db user k a || overrideFlag db user k a)) ∧
    (aget (get_user_permissions db user) k = none →
        roleDefault db user k a = false ∧ overrideFlag db user k a = false) :=
  ⟨check_eq db user k a hwf,
   fun e he => entry_flag_eq db user k a e hwf he,
   fun h => absent_flags_false db user k a hwf h⟩

/-- C1 witness: in `demoDb` the role grants `view` on `dashboard` and the
override row carries `view = False`; the resolved value is the OR of the
two. -/
theorem c1_witness :
    check_permission demoDb demoUser "dashboard" Action.view.key =
      .b (roleDefault demoDb demoUser "dashboard" .view ||
          overrideFlag demoDb demoUser "dashboard" .view) ∧
    (∀ e, aget (get_user_permissions demoDb demoUser) "dashboard" = some e →
        entryGetD e Action.view.key =
          .b (roleDefault demoDb demoUser "dashboard" .view ||
              overrideFlag demoDb demoUser "dashboard" .view)) ∧
    (aget (get_user_permissions demoDb demoUser) "dashboard" = none →
        roleDefault demoDb demoUser "dashboard" .view = false ∧
        overrideFlag demoDb demoUser "dashboard" .view = false) :=
  c1_or_merge demoDb demoUser "dashboard" .view (by decide)

/-- C4 counterexample: the per-module dict also stores the Module ORM
object under the key `"module"`, so for the unrecognized action string
`"module"` the function returns that object — a truthy non-boolean — and
not `False` as the claim states. -/
theorem c4_counterexample :
    check_permission demoDb demoUser "dashboard" "module" = .mod dashModule ∧
    PyVal.mod dashModule ≠ .b false ∧
    PyVal.mod dashModule ≠ .b true :=
  ⟨by decide, by decide, by decide⟩

/-- C4 (amended): `check_permission` returns the named boolean flag for the
four flag actions and the boolean `False` when the module is absent or the
action is unrecognized — except for the reserved key `"module"`, for which
it returns the stored Module ORM object (truthy, not a boolean) whenever
the module has an entry in the resolved map. -/
theorem c4_lookup_amended (db : Db) (user : User) (k action : String)
    (hwf : wellFormed db = true) :
    (moduleByName db k = none →
        check_permission db user k action = .b false) ∧
    (action ≠ "view" → action ≠ "create" → action ≠ "edit" →
      action ≠ "delete" → action ≠ "module" →
      check_permission db user k action = .b false) ∧
    (∀ m e, moduleByName db k = some m →
      aget (get_user_permissions db user) k = some e →
      check_permission db user k "module" = .mod m) ∧
    (∀ a : Action, check_permission db user k a.key =
      .b (roleDefault db user k a || overrideFlag db user k a)) := by
  have hshape : ∀ e, aget (get_user_permissions db user) k = some e →
      ∃ m, moduleByName db k = some m ∧
        ((∃ p, e = entryOfRole p m) ∨
         (∃ q, e = entryOfOverride q m) ∨
         (∃ p q, e = entryMerged p q m)) := by
    intro e he
    rw [aget_perms db user k hwf] at he
    cases hmod : moduleByName db k with
    | none => simp [resolvedEntry, hmod] at he
    | some m =>
        refine ⟨m, rfl, ?_⟩
        cases hrr : roleRowFor db user m with
        | none =>
            cases hur : userRowFor db user m with
            | none => simp [resolvedEntry, hmod, hrr, hur] at he
            | some q =>
                simp only [resolvedEntry, hmod, hrr, hur,
                  Option.some.injEq] at he
                exact Or.inr (Or.inl ⟨q, he.symm⟩)
        | some p =>
            cases hur : userRowFor db user m with
            | none =>
                simp only [resolvedEntry, hmod, hrr, hur,
                  Option.some.injEq] at he
                exact Or.inl ⟨p, he.symm⟩
            | some q =>
                simp only [resolvedEntry, hmod, hrr, hur,
                  Option.some.injEq] at he
                exact Or.inr (Or.inr ⟨p, q, he.symm⟩)
  refine ⟨?_, ?_, ?_, fun a => check_eq db user k a hwf⟩
  · intro hmod
    simp [check_permission, aget_perms db user k hwf, resolvedEntry, hmod]
  · intro h1 h2 h3 h4 h5
    cases hag : aget (get_user_permissions db user) k with
    | none => simp [check_permission, hag]
    | some e =>
        obtain ⟨m, hmod, hcase⟩ := hshape e hag
        have hval : entryGetD e action = .b false := by
          rcases hcase with ⟨p, he⟩ | ⟨q, he⟩ | ⟨p, q, he⟩ <;> subst he <;>
            simp [entryGetD, aget, entryOfRole, entryOfOverride, entryMerged,
              Ne.symm h1, Ne.symm h2, Ne.symm h3, Ne.symm h4, Ne.symm h5]
        simp [check_permission, hag, hval]
  · intro m e hmod hag
    obtain ⟨m', hmod', hcase⟩ := hshape e hag
    rw [hmod] at hmod'
    injection hmod' with hmod'
    subst hmod'
    have hval : entryGetD e "module" = .mod m := by
      rcases hcase with ⟨p, he⟩ | ⟨q, he⟩ | ⟨p, q, he⟩ <;> subst he <;> rfl
    simp [check_permission, hag, hval]

/-- C4 witness: the amended theorem at `demoDb` with the unrecognized
action `"status"`. -/
theorem c4_witness :
    (moduleByName demoDb "dashboard" = none →
        check_permission demoDb demoUser "dashboard" "status" = .b false) ∧
    ("status" ≠ "view" → "status" ≠ "create" → "status" ≠ "edit" →
      "status" ≠ "delete" → "status" ≠ "module" →
      check_permission demoDb demoUser "dashboard" "status" = .b false) ∧
    (∀ m e, moduleByName demoDb "dashboard" = some m →
      aget (get_user_permissions demoDb demoUser) "dashboard" = some e →
      check_permission demoDb demoUser "dashboard" "module" = .mod m) ∧
    (∀ a : Action, check_permission demoDb demoUser "dashboard" a.key =
      .b (roleDefault demoDb demoUser "dashboard" a ||
          overrideFlag demoDb demoUser "dashboard" a)) :=
  c4_lookup_amended demoDb demoUser "dashboard" "status" (by decide)

end Rbac

namespace Rbac

/-! ## Override-table invariants (claims C5, C9, C10) -/

theorem mem_replaceFirst {α : Type} (l : List α) (p : α → Bool) (v : α) :
    ∀ y ∈ replaceFirst l p v, y ∈ l ∨ y = v := by
  induction l with
  | nil => intro y hy; cases hy
  | cons x r ih =>
      intro y hy
      by_cases hx : p x
      · simp only [replaceFirst, if_pos hx] at hy
        rcases List.mem_cons.mp hy with hy | hy
        · exact Or.inr hy
        · exact Or.inl (List.mem_cons_of_mem x hy)
      · simp only [replaceFirst, if_neg hx] at hy
        rcases List.mem_cons.mp hy with hy | hy
        · exact Or.inl (hy ▸ List.mem_cons_self x r)
        · rcases ih y hy with h | h
          · exact Or.inl (List.mem_cons_of_mem x h)
          · exact Or.inr h

theorem removeFirst_sublist {α : Type} (l : List α) (p : α → Bool) :
    (removeFirst l p).Sublist l := by
  induction l with
  | nil => exact List.Sublist.refl []
  | cons x r ih =>
      by_cases hx : p x
      · simp only [removeFirst, if_pos hx]
        exact (List.Sublist.refl r).cons x
      · simp only [removeFirst, if_neg hx]
        exact ih.cons₂ x

theorem pairwiseB_append_singleton {α : Type} (p : α → α → Bool)
    (l : List α) (a : α) :
    pairwiseB p (l ++ [a]) =
      (pairwiseB p l && l.all (fun x => p x a)) := by
  induction l with
  | nil => simp [pairwiseB]
  | cons x r ih =>
      simp only [List.cons_append, pairwiseB, List.all_append, List.all_cons,
        List.all_nil, ih, Bool.and_true]
      cases h1 : r.all (fun y => p x y) <;> cases h2 : p x a <;>
        cases h3 : pairwiseB p r <;> cases h4 : r.all (fun y => p y a) <;>
        simp [ih, h1, h2, h3, h4]

theorem umpUnique_sublist {l1 l2 : List UserModulePermission}
    (hs : l1.Sublist l2) (h : umpUnique l2 = true) : umpUnique l1 = true := by
  unfold umpUnique at h ⊢
  exact (pairwiseB_iff _ _).mpr (((pairwiseB_iff _ _).mp h).sublist hs)

theorem countRows_le_one {l : List UserModulePermission}
    (h : umpUnique l = true) (uid mid : Nat) : countRows l uid mid ≤ 1 := by
  induction l with
  | nil => exact Nat.zero_le 1
  | cons x r ih =>
      have hparts : (r.all
          (fun y => !(x.user_id == y.user_id && x.module_id == y.module_id)))
            = true ∧ umpUnique r = true := by
        simpa [umpUnique, pairwiseB, Bool.and_eq_true] using h
      by_cases hx : (x.user_id == uid && x.module_id == mid) = true
      · have hxu : x.user_id = uid := by
          simp only [Bool.and_eq_true, beq_iff_eq] at hx; exact hx.1
        have hxm : x.module_id = mid := by
          simp only [Bool.and_eq_true, beq_iff_eq] at hx; exact hx.2
        have hrest : r.filter
            (fun p => p.user_id == uid && p.module_id == mid) = [] := by
          rw [List.filter_eq_nil_iff]
          intro q hq hcq
          have hqu : q.user_id = uid := by
            simp only [Bool.and_eq_true, beq_iff_eq] at hcq; exact hcq.1
          have hqm : q.module_id = mid := by
            simp only [Bool.and_eq_true, beq_iff_eq] at hcq; exact hcq.2
          have := List.all_eq_true.mp hparts.1 q hq
          simp [hxu, hxm, hqu, hqm] at this
        simp [countRows, List.filter_cons, hx, hrest]
      · have : countRows (x :: r) uid mid = countRows r uid mid := by
          simp [countRows, List.filter_cons, hx]
        rw [this]
        exact ih hparts.2

end Rbac

namespace Rbac

theorem umpUnique_replaceFirst (l : List UserModulePermission)
    (uid mid : Nat) (new : UserModulePermission)
    (hu : new.user_id = uid) (hm : new.module_id = mid)
    (h : umpUnique l = true) :
    umpUnique (replaceFirst l
      (fun p => p.user_id == uid && p.module_id == mid) new) = true := by
  induction l with
  | nil => rfl
  | cons x r ih =>
      have hparts : (r.all
          (fun y => !(x.user_id == y.user_id && x.module_id == y.module_id)))
            = true ∧ umpUnique r = true := by
        simpa [umpUnique, pairwiseB, Bool.and_eq_true] using h
      by_cases hx : (x.user_id == uid && x.module_id == mid) = true
      · have hxu : x.user_id = uid := by
          simp only [Bool.and_eq_true, beq_iff_eq] at hx; exact hx.1
        have hxm : x.module_id = mid := by
          simp only [Bool.and_eq_true, beq_iff_eq] at hx; exact hx.2
        simp only [replaceFirst, if_pos hx]
        have hall : r.all (fun y =>
            !(new.user_id == y.user_id && new.module_id == y.module_id))
              = true := by
          rw [List.all_eq_true]
          intro y hy
          have := List.all_eq_true.mp hparts.1 y hy
          simpa [hu, hm, hxu, hxm] using this
        simpa [umpUnique, pairwiseB, Bool.and_eq_true] using
          And.intro hall hparts.2
      · simp only [replaceFirst, if_neg hx]
        have hall : r.all (fun y =>
            !(x.user_id == y.user_id && x.module_id == y.module_id)) = true :=
          hparts.1
        have hallrep : (replaceFirst r
            (fun p => p.user_id == uid && p.module_id == mid) new).all
            (fun y =>
              !(x.user_id == y.user_id && x.module_id == y.module_id))
              = true := by
          rw [List.all_eq_true]
          intro y hy
          rcases mem_replaceFirst r _ new y hy with hmem | hnew
          · exact List.all_eq_true.mp hall y hmem
          · subst hnew
            rw [hu, hm]
            simp only [Bool.not_eq_true', Bool.and_eq_false_iff]
            by_cases hxu : x.user_id = uid
            · by_cases hxm : x.module_id = mid
              · exact absurd (by simp [hxu, hxm]) hx
              · exact Or.inr (by simp [hxm])
            · exact Or.inl (by simp [hxu])
        simpa [umpUnique, pairwiseB, Bool.and_eq_true] using
          And.intro hallrep (ih hparts.2)

theorem umpUnique_append_new (l : List UserModulePermission)
    (uid mid : Nat) (new : UserModulePermission)
    (hu : new.user_id = uid) (hm : new.module_id = mid)
    (h : umpUnique l = true)
    (hnone : l.find? (fun p => p.user_id == uid && p.module_id == mid)
      = none) :
    umpUnique (l ++ [new]) = true := by
  unfold umpUnique
  rw [pairwiseB_append_singleton]
  rw [Bool.and_eq_true]
  refine ⟨h, ?_⟩
  rw [List.all_eq_true]
  intro x hx
  have hnp := List.find?_eq_none.mp hnone x hx
  rw [hu, hm]
  simp only [Bool.not_eq_true', Bool.and_eq_false_iff]
  by_cases hxu : x.user_id = uid
  · by_cases hxm : x.module_id = mid
    · exact absurd (by simp [hxu, hxm]) hnp
    · exact Or.inr (by simp [hxm])
  · exact Or.inl (by simp [hxu])

theorem grant_ok_cases (db : Db) (uid : Nat) (mname : String)
    (v c e d : Bool) (gb : Option Nat) (db2 : Db)
    (hg : grant_custom_permission db uid mname v c e d gb = .ok db2) :
    ∃ m, db.modules.find? (fun m' => m'.name == mname) = some m ∧
      ((∃ r, db.user_perms.find?
          (fun p => p.user_id == uid && p.module_id == m.id) = some r ∧
        db2 = { db with user_perms :=
          (replaceFirst db.user_perms
            (fun p => p.user_id == uid && p.module_id == m.id)
            ⟨uid, m.id, v, c, e, d, gb⟩) }) ∨
       (db.user_perms.find?
          (fun p => p.user_id == uid && p.module_id == m.id) = none ∧
        db2 = { db with user_perms :=
          (db.user_perms ++ [⟨uid, m.id, v, c, e, d, gb⟩]) })) := by
  unfold grant_custom_permission at hg
  cases hm : db.modules.find? (fun m' => m'.name == mname) with
  | none => rw [hm] at hg; cases hg
  | some m =>
      simp only [hm] at hg
      refine ⟨m, rfl, ?_⟩
      cases hr : db.user_perms.find?
          (fun p => p.user_id == uid && p.module_id == m.id) with
      | some r =>
          simp only [hr] at hg
          injection hg with hg
          exact Or.inl ⟨r, rfl, hg.symm⟩
      | none =>
          simp only [hr] at hg
          injection hg with hg
          exact Or.inr ⟨rfl, hg.symm⟩

theorem grant_preserves_unique (db : Db) (uid : Nat) (mname : String)
    (v c e d : Bool) (gb : Option Nat) (db2 : Db)
    (h : umpUnique db.user_perms = true)
    (hg : grant_custom_permission db uid mname v c e d gb = .ok db2) :
    umpUnique db2.user_perms = true := by
  obtain ⟨m, hm, hcase⟩ := grant_ok_cases db uid mname v c e d gb db2 hg
  rcases hcase with ⟨r, hr, hdb⟩ | ⟨hr, hdb⟩
  · subst hdb
    exact umpUnique_replaceFirst db.user_perms uid m.id _ rfl rfl h
  · subst hdb
    exact umpUnique_append_new db.user_perms uid m.id _ rfl rfl h hr

theorem revoke_cases (db : Db) (uid : Nat) (mname : String) :
    (db.modules.find? (fun m' => m'.name == mname) = none ∧
      revoke_custom_permission db uid mname = (false, db)) ∨
    (∃ m, db.modules.find? (fun m' => m'.name == mname) = some m ∧
      ((db.user_perms.find?
          (fun p => p.user_id == uid && p.module_id == m.id) = none ∧
        revoke_custom_permission db uid mname = (false, db)) ∨
       (∃ r, db.user_perms.find?
          (fun p => p.user_id == uid && p.module_id == m.id) = some r ∧
        revoke_custom_permission db uid mname = (true, { db with user_perms :=
          (removeFirst db.user_perms
            (fun p => p.user_id == uid && p.module_id == m.id)) })))) := by
  cases hm : db.modules.find? (fun m' => m'.name == mname) with
  | none => exact Or.inl ⟨rfl, by simp [revoke_custom_permission, hm]⟩
  | some m =>
      cases hr : db.user_perms.find?
          (fun p => p.user_id == uid && p.module_id == m.id) with
      | none =>
          exact Or.inr ⟨m, rfl,
            Or.inl ⟨hr, by simp [revoke_custom_permission, hm, hr]⟩⟩
      | some r =>
          exact Or.inr ⟨m, rfl,
            Or.inr ⟨r, hr, by simp [revoke_custom_permission, hm, hr]⟩⟩

theorem revoke_preserves_unique (db : Db) (uid : Nat) (mname : String)
    (h : umpUnique db.user_perms = true) :
    umpUnique (revoke_custom_permission db uid mname).snd.user_perms
      = true := by
  rcases revoke_cases db uid mname with ⟨-, heq⟩ |
    ⟨m, -, ⟨-, heq⟩ | ⟨r, -, heq⟩⟩ <;> rw [heq]
  · exact h
  · exact h
  · exact umpUnique_sublist (removeFirst_sublist _ _) h

theorem grant_keeps_rest (db : Db) (uid : Nat) (mname : String)
    (v c e d : Bool) (gb : Option Nat) (db2 : Db)
    (hg : grant_custom_permission db uid mname v c e d gb = .ok db2) :
    db2.modules = db.modules ∧ db2.roles = db.roles ∧
      db2.role_perms = db.role_perms := by
  obtain ⟨m, hm, hcase⟩ := grant_ok_cases db uid mname v c e d gb db2 hg
  rcases hcase with ⟨r, hr, hdb⟩ | ⟨hr, hdb⟩ <;> subst hdb <;>
    exact ⟨rfl, rfl, rfl⟩

theorem applyOp_unique (db : Db) (op : OverrideOp)
    (h : umpUnique db.user_perms = true) :
    umpUnique (applyOp db op).user_perms = true := by
  cases op with
  | grant uid mname v c e d gb =>
      simp only [applyOp]
      cases hg : grant_custom_permission db uid mname v c e d gb with
      | error s => exact h
      | ok db2 => exact grant_preserves_unique db uid mname v c e d gb db2 h hg
  | revoke uid mname =>
      exact revoke_preserves_unique db uid mname h

theorem applyOps_unique (db : Db) (ops : List OverrideOp)
    (h : umpUnique db.user_perms = true) :
    umpUnique (applyOps db ops).user_perms = true := by
  induction ops generalizing db with
  | nil => exact h
  | cons op rest ih =>
      exact ih (applyOp db op) (applyOp_unique db op h)

end Rbac

namespace Rbac

theorem countRows_replaceFirst (l : List UserModulePermission)
    (uid mid : Nat) (new : UserModulePermission)
    (hnew : (new.user_id == uid && new.module_id == mid) = true) :
    countRows (replaceFirst l
      (fun p => p.user_id == uid && p.module_id == mid) new) uid mid =
      countRows l uid mid := by
  induction l with
  | nil => rfl
  | cons x r ih =>
      by_cases hx : (x.user_id == uid && x.module_id == mid) = true
      · simp [replaceFirst, countRows, List.filter_cons, hx, hnew]
      · simp only [replaceFirst, if_neg hx]
        simp [countRows, List.filter_cons, hx] at ih ⊢
        exact ih

theorem countRows_pos_of_find {l : List UserModulePermission}
    {uid mid : Nat} {r : UserModulePermission}
    (hfind : l.find? (fun p => p.user_id == uid && p.module_id == mid)
      = some r) : 1 ≤ countRows l uid mid := by
  have hp := List.find?_some hfind
  exact List.length_pos.mpr (List.ne_nil_of_mem
    (List.mem_filter.mpr ⟨List.mem_of_find?_eq_some hfind, hp⟩))

theorem countRows_append_new (l : List UserModulePermission)
    (uid mid : Nat) (new : UserModulePermission)
    (hnew : (new.user_id == uid && new.module_id == mid) = true) :
    countRows (l ++ [new]) uid mid = countRows l uid mid + 1 := by
  simp [countRows, List.filter_append, List.filter_cons, hnew]

theorem countRows_zero_of_find_none (l : List UserModulePermission)
    (uid mid : Nat)
    (hfind : l.find? (fun p => p.user_id == uid && p.module_id == mid)
      = none) : countRows l uid mid = 0 := by
  unfold countRows
  rw [List.filter_eq_nil_iff.mpr (List.find?_eq_none.mp hfind)]
  rfl

theorem grant_count_one (db : Db) (uid : Nat) (mname : String)
    (v c e d : Bool) (gb : Option Nat) (db2 : Db) (m : Module)
    (h : umpUnique db.user_perms = true)
    (hg : grant_custom_permission db uid mname v c e d gb = .ok db2)
    (hm : db.modules.find? (fun m' => m'.name == mname) = some m) :
    countRows db2.user_perms uid m.id = 1 := by
  obtain ⟨m', hm', hcase⟩ := grant_ok_cases db uid mname v c e d gb db2 hg
  rw [hm] at hm'
  injection hm' with hm'
  subst hm'
  rcases hcase with ⟨r, hr, hdb⟩ | ⟨hr, hdb⟩
  · subst hdb
    show countRows (replaceFirst db.user_perms _ _) uid m.id = 1
    rw [countRows_replaceFirst db.user_perms uid m.id _ (by simp)]
    have h1 := countRows_le_one h uid m.id
    have h2 := countRows_pos_of_find hr
    omega
  · subst hdb
    show countRows (db.user_perms ++ _) uid m.id = 1
    rw [countRows_append_new db.user_perms uid m.id _ (by simp),
      countRows_zero_of_find_none db.user_perms uid m.id hr]

/-- C5: starting from a store whose override table satisfies the unique
(user, module) row invariant, any sequence of grant/revoke operations
preserves it (so at most one row exists per pair); a successful grant —
and in particular the second of two identical grants — leaves exactly one
row for its (user, module) pair. -/
theorem c5_at_most_one_override_row (db : Db) (ops : List OverrideOp)
    (uid : Nat) (mname : String) (v c e d : Bool) (gb : Option Nat)
    (m : Module) (db1 db2 : Db)
    (h : umpUnique db.user_perms = true)
    (hg1 : grant_custom_permission (applyOps db ops) uid mname v c e d gb
      = .ok db1)
    (hg2 : grant_custom_permission db1 uid mname v c e d gb = .ok db2)
    (hm : (applyOps db ops).modules.find? (fun m' => m'.name == mname)
      = some m) :
    (∀ uid2 mid2, countRows (applyOps db ops).user_perms uid2 mid2 ≤ 1) ∧
    countRows db1.user_perms uid m.id = 1 ∧
    countRows db2.user_perms uid m.id = 1 := by
  have hu := applyOps_unique db ops h
  refine ⟨fun uid2 mid2 => countRows_le_one hu uid2 mid2, ?_, ?_⟩
  · exact grant_count_one _ uid mname v c e d gb db1 m hu hg1 hm
  · have hu1 := grant_preserves_unique _ uid mname v c e d gb db1 hu hg1
    have hkeep := grant_keeps_rest _ uid mname v c e d gb db1 hg1
    have hm1 : db1.modules.find? (fun m' => m'.name == mname) = some m := by
      rw [hkeep.1]; exact hm
    exact grant_count_one db1 uid mname v c e d gb db2 m hu1 hg2 hm1

/-- C5 witness: granting the same flags twice on `pay_disputes` for the
user of `overrideOnlyDb` (which already holds that override) keeps exactly
one row. -/
theorem c5_witness :
    (∀ uid2 mid2,
      countRows (applyOps overrideOnlyDb []).user_perms uid2 mid2 ≤ 1) ∧
    countRows overrideOnlyDb.user_perms 1 payModule.id = 1 ∧
    countRows overrideOnlyDb.user_perms 1 payModule.id = 1 :=
  c5_at_most_one_override_row overrideOnlyDb [] 1 "pay_disputes"
    true false false false none payModule overrideOnlyDb overrideOnlyDb
    (by decide) rfl rfl rfl

/-- C9 counterexample: `revoke_custom_permission` returns the same bare
`False` both when the module name is absent from the catalog and when the
module exists but no override row does — the two outcomes are not
distinguishable, contrary to the claim. -/
theorem c9_counterexample :
    (revoke_custom_permission emptyDb 1 "pay_disputes").fst = false ∧
    (revoke_custom_permission payOnlyDb 1 "pay_disputes").fst = false ∧
    (revoke_custom_permission emptyDb 1 "pay_disputes").fst =
      (revoke_custom_permission payOnlyDb 1 "pay_disputes").fst :=
  ⟨rfl, rfl, rfl⟩

/-- C9 (amended): for a module name absent from the catalog,
`grant_custom_permission` raises `ValueError` — distinguishable from a
permission denial, which is a boolean — but `revoke_custom_permission`
returns the plain `False` it also returns when the module exists and no
override row does, so for revoke the configuration error is not
distinguishable from the normal no-row result. -/
theorem c9_revoke_not_distinguishable (db db2 : Db) (uid : Nat)
    (mname : String) (v c e d : Bool) (gb : Option Nat) (m2 : Module)
    (hmod : db.modules.find? (fun m' => m'.name == mname) = none)
    (hmod2 : db2.modules.find? (fun m' => m'.name == mname) = some m2)
    (hrow2 : db2.user_perms.find?
      (fun p => p.user_id == uid && p.module_id == m2.id) = none) :
    grant_custom_permission db uid mname v c e d gb =
      .error ("Module " ++ mname ++ " not found") ∧
    revoke_custom_permission db uid mname = (false, db) ∧
    revoke_custom_permission db2 uid mname = (false, db2) := by
  refine ⟨?_, ?_, ?_⟩
  · simp [grant_custom_permission, hmod]
  · simp [revoke_custom_permission, hmod]
  · simp [revoke_custom_permission, hmod2, hrow2]

/-- C9 witness: the amended theorem at a store without the module and a
store with the module but no override row. -/
theorem c9_witness :
    grant_custom_permission emptyDb 1 "pay_disputes" true false false false
      none = .error ("Module " ++ "pay_disputes" ++ " not found") ∧
    revoke_custom_permission emptyDb 1 "pay_disputes" = (false, emptyDb) ∧
    revoke_custom_permission payOnlyDb 1 "pay_disputes" =
      (false, payOnlyDb) :=
  c9_revoke_not_distinguishable emptyDb payOnlyDb 1 "pay_disputes"
    true false false false none payModule rfl rfl rfl

theorem find?_replaceFirst {α : Type} (l : List α) (p : α → Bool) (v : α)
    (hv : p v = true) {r : α} (hfind : l.find? p = some r) :
    (replaceFirst l p v).find? p = some v := by
  induction l with
  | nil => cases hfind
  | cons x rest ih =>
      by_cases hx : p x
      · simp [replaceFirst, hx, List.find?_cons_of_pos _ hv]
      · rw [List.find?_cons_of_neg _ (by simp [hx])] at hfind
        simp only [replaceFirst, if_neg hx]
        rw [List.find?_cons_of_neg _ (by simp [hx])]
        exact ih hfind

/-- C10: a re-grant replaces the stored flags wholesale — after a
successful grant on a pair that already had an override row, the stored
row carries exactly the newly supplied flags, not the OR with the old
ones; concretely, re-granting `pay_disputes` with `view = False` for a
user whose only access came from the override drops the resolved `view`
permission from `True` to `False`. -/
theorem c10_wholesale_replacement (db : Db) (uid : Nat) (mname : String)
    (v c e d : Bool) (gb : Option Nat) (m : Module)
    (r : UserModulePermission) (db2 : Db)
    (hm : db.modules.find? (fun m' => m'.name == mname) = some m)
    (hrow : db.user_perms.find?
      (fun p => p.user_id == uid && p.module_id == m.id) = some r)
    (hg : grant_custom_permission db uid mname v c e d gb = .ok db2) :
    db2.user_perms.find?
      (fun p => p.user_id == uid && p.module_id == m.id) =
        some ⟨uid, m.id, v, c, e, d, gb⟩ ∧
    check_permission overrideOnlyDb ⟨1, none⟩ "pay_disputes" "view"
      = .b true ∧
    grant_custom_permission overrideOnlyDb 1 "pay_disputes"
        false false false false none =
      .ok { overrideOnlyDb with user_perms :=
        [⟨1, 2, false, false, false, false, none⟩] } ∧
    check_permission { overrideOnlyDb with user_perms :=
        [⟨1, 2, false, false, false, false, none⟩] } ⟨1, none⟩
      "pay_disputes" "view" = .b false := by
  refine ⟨?_, by decide, rfl, by decide⟩
  obtain ⟨m', hm', hcase⟩ := grant_ok_cases db uid mname v c e d gb db2 hg
  rw [hm] at hm'
  injection hm' with hm'
  subst hm'
  rcases hcase with ⟨r', hr', hdb⟩ | ⟨hr', hdb⟩
  · subst hdb
    exact find?_replaceFirst db.user_perms _ _ (by simp) hr'
  · rw [hrow] at hr'
    cases hr'

/-- C10 witness: the theorem at `overrideOnlyDb`, whose user's only
`pay_disputes` access is the override row being re-granted with all flags
`False`. -/
theorem c10_witness :
    ({ overrideOnlyDb with user_perms :=
        [⟨1, 2, false, false, false, false, none⟩] } : Db).user_perms.find?
      (fun p => p.user_id == 1 && p.module_id == payModule.id) =
        some ⟨1, payModule.id, false, false, false, false, none⟩ ∧
    check_permission overrideOnlyDb ⟨1, none⟩ "pay_disputes" "view"
      = .b true ∧
    grant_custom_permission overrideOnlyDb 1 "pay_disputes"
        false false false false none =
      .ok { overrideOnlyDb with user_perms :=
        [⟨1, 2, false, false, false, false, none⟩] } ∧
    check_permission { overrideOnlyDb with user_perms :=
        [⟨1, 2, false, false, false, false, none⟩] } ⟨1, none⟩
      "pay_disputes" "view" = .b false :=
  c10_wholesale_replacement overrideOnlyDb 1 "pay_disputes"
    false false false false none payModule
    ⟨1, 2, true, false, false, false, none⟩
    { overrideOnlyDb with user_perms :=
      [⟨1, 2, false, false, false, false, none⟩] }
    rfl rfl rfl

end Rbac

namespace Rbac

/-! ## Claim C6: accessible modules -/

theorem gam_eq (db : Db) (user : User) :
    get_accessible_modules db user =
      ((List.insertionSort (fun a b => a.sort_order ≤ b.sort_order)
          (db.modules.filter (fun m => m.is_active))).filter
        (viewCond (get_user_permissions db user))).map
          (entryFor (get_user_permissions db user)) := by
  simp only [get_accessible_modules]
  generalize List.insertionSort (fun a b => a.sort_order ≤ b.sort_order)
    (db.modules.filter (fun m => m.is_active)) = l
  induction l with
  | nil => rfl
  | cons m r ih =>
      rw [List.filterMap_cons, List.filter_cons]
      cases hag : aget (get_user_permissions db user) m.name with
      | none =>
          have hvc : viewCond (get_user_permissions db user) m = false := by
            simp [viewCond, hag]
          rw [hvc]
          simpa using ih
      | some e =>
          cases hview : pyTruthy (entryGetD e "view") with
          | false =>
              have hvc : viewCond (get_user_permissions db user) m = false := by
                simp [viewCond, hag, hview]
              rw [hvc]
              simpa [hview] using ih
          | true =>
              have hvc : viewCond (get_user_permissions db user) m = true := by
                simp [viewCond, hag, hview]
              rw [hvc]
              simp [ih, entryFor, hag, hview]

/-- C6: `get_accessible_modules` returns exactly the active modules whose
resolved `view` flag (role OR override) is true, each entry carrying the
module's display fields and the four resolved flags; the list is ordered
by `sort_order`; an inactive module is never returned, whatever the
user's role and override rows say. -/
theorem c6_accessible_modules (db : Db) (user : User)
    (hwf : wellFormed db = true) :
    (∀ a ∈ get_accessible_modules db user, ∃ m, m ∈ db.modules ∧
      m.is_active = true ∧ a.name = m.name ∧
      a.display_name = m.display_name ∧ a.category = m.category ∧
      a.icon = m.icon ∧ a.route = m.route ∧
      (roleDefault db user m.name .view || overrideFlag db user m.name .view)
        = true ∧
      a.can_view = .b true ∧
      a.can_create = .b (roleDefault db user m.name .create ||
        overrideFlag db user m.name .create) ∧
      a.can_edit = .b (roleDefault db user m.name .edit ||
        overrideFlag db user m.name .edit) ∧
      a.can_delete = .b (roleDefault db user m.name .delete ||
        overrideFlag db user m.name .delete)) ∧
    (∀ m ∈ db.modules, m.is_active = true →
      (roleDefault db user m.name .view || overrideFlag db user m.name .view)
        = true →
      ∃ a ∈ get_accessible_modules db user, a.name = m.name) ∧
    List.Pairwise (fun a b : AccessibleEntry => ∀ ma mb,
      moduleByName db a.name = some ma → moduleByName db b.name = some mb →
      ma.sort_order ≤ mb.sort_order) (get_accessible_modules db user) ∧
    (∀ m ∈ db.modules, m.is_active = false →
      ∀ a ∈ get_accessible_modules db user, a.name ≠ m.name) := by
  have hmemsort : ∀ m : Module,
      m ∈ List.insertionSort (fun a b => a.sort_order ≤ b.sort_order)
        (db.modules.filter (fun m => m.is_active)) ↔
      (m ∈ db.modules ∧ m.is_active = true) := by
    intro m
    rw [(List.perm_insertionSort _ _).mem_iff, List.mem_filter]
  have hvc : ∀ m : Module, viewCond (get_user_permissions db user) m =
      (roleDefault db user m.name .view ||
        overrideFlag db user m.name .view) := by
    intro m
    unfold viewCond
    cases hag : aget (get_user_permissions db user) m.name with
    | none =>
        obtain ⟨h1, h2⟩ := absent_flags_false db user m.name .view hwf hag
        simp [h1, h2]
    | some e =>
        have h' : entryGetD e "view" =
            .b (roleDefault db user m.name .view ||
              overrideFlag db user m.name .view) :=
          entry_flag_eq db user m.name .view e hwf hag
        show pyTruthy (entryGetD e "view") = _
        rw [h']
        rfl
  refine ⟨?_, ?_, ?_, ?_⟩
  · intro a ha
    rw [gam_eq] at ha
    obtain ⟨m, hm, rfl⟩ := List.mem_map.mp ha
    have hmf := List.mem_filter.mp hm
    have hmm := (hmemsort m).mp hmf.1
    have hview : (roleDefault db user m.name .view ||
        overrideFlag db user m.name .view) = true := by
      rw [← hvc]; exact hmf.2
    have hsome : ∃ e, aget (get_user_permissions db user) m.name = some e := by
      cases hag : aget (get_user_permissions db user) m.name with
      | none =>
          have : viewCond (get_user_permissions db user) m = false := by
            simp [viewCond, hag]
          rw [this] at hmf
          exact absurd hmf.2 (by simp)
      | some e => exact ⟨e, rfl⟩
    obtain ⟨e, hag⟩ := hsome
    refine ⟨m, hmm.1, hmm.2, rfl, ?_, ?_, ?_, ?_, hview, ?_, ?_, ?_, ?_⟩ <;>
      simp only [entryFor, hag, Option.getD_some]
    · have h := entry_flag_eq db user m.name .view e hwf hag
      rw [hview] at h
      exact h
    · exact entry_flag_eq db user m.name .create e hwf hag
    · exact entry_flag_eq db user m.name .edit e hwf hag
    · exact entry_flag_eq db user m.name .delete e hwf hag
  · intro m hm hact hview
    refine ⟨entryFor (get_user_permissions db user) m, ?_, rfl⟩
    rw [gam_eq]
    exact List.mem_map.mpr ⟨m, List.mem_filter.mpr
      ⟨(hmemsort m).mpr ⟨hm, hact⟩, by rw [hvc]; exact hview⟩, rfl⟩
  · rw [gam_eq]
    have hsorted : List.Pairwise
        (fun a b : Module => a.sort_order ≤ b.sort_order)
        (List.insertionSort (fun a b => a.sort_order ≤ b.sort_order)
          (db.modules.filter (fun m => m.is_active))) := by
      haveI : IsTotal Module (fun a b => a.sort_order ≤ b.sort_order) :=
        ⟨fun a b => Nat.le_total a.sort_order b.sort_order⟩
      haveI : IsTrans Module (fun a b => a.sort_order ≤ b.sort_order) :=
        ⟨fun a b c h1 h2 => Nat.le_trans h1 h2⟩
      exact List.sorted_insertionSort _ _
    have hsf := hsorted.filter (viewCond (get_user_permissions db user))
    rw [List.pairwise_map]
    refine hsf.imp_of_mem ?_
    intro m1 m2 h1 h2 hle ma mb hma hmb
    have hm1 := ((hmemsort m1).mp (List.mem_filter.mp h1).1).1
    have hm2 := ((hmemsort m2).mp (List.mem_filter.mp h2).1).1
    have hma' := moduleByName_self db hwf hm1
    have hmb' := moduleByName_self db hwf hm2
    have hea : (entryFor (get_user_permissions db user) m1).name = m1.name :=
      rfl
    have heb : (entryFor (get_user_permissions db user) m2).name = m2.name :=
      rfl
    rw [hea, hma'] at hma
    rw [heb, hmb'] at hmb
    injection hma with hma
    injection hmb with hmb
    rw [← hma, ← hmb]
    exact hle
  · intro m hm hinact a ha hname
    rw [gam_eq] at ha
    obtain ⟨m', hm', rfl⟩ := List.mem_map.mp ha
    have hmm' := (hmemsort m').mp (List.mem_filter.mp hm').1
    have heq : m' = m := module_name_inj db hwf hmm'.1 hm hname
    rw [heq] at hmm'
    rw [hmm'.2] at hinact
    cases hinact

/-- C6 witness: the theorem at `demoDb`, where `dashboard` and
`pay_disputes` are visible and the deactivated `schedule` module is fully
granted yet never returned. -/
theorem c6_witness :
    (∀ a ∈ get_accessible_modules demoDb demoUser, ∃ m, m ∈ demoDb.modules ∧
      m.is_active = true ∧ a.name = m.name ∧
      a.display_name = m.display_name ∧ a.category = m.category ∧
      a.icon = m.icon ∧ a.route = m.route ∧
      (roleDefault demoDb demoUser m.name .view ||
        overrideFlag demoDb demoUser m.name .view) = true ∧
      a.can_view = .b true ∧
      a.can_create = .b (roleDefault demoDb demoUser m.name .create ||
        overrideFlag demoDb demoUser m.name .create) ∧
      a.can_edit = .b (roleDefault demoDb demoUser m.name .edit ||
        overrideFlag demoDb demoUser m.name .edit) ∧
      a.can_delete = .b (roleDefault demoDb demoUser m.name .delete ||
        overrideFlag demoDb demoUser m.name .delete)) ∧
    (∀ m ∈ demoDb.modules, m.is_active = true →
      (roleDefault demoDb demoUser m.name .view ||
        overrideFlag demoDb demoUser m.name .view) = true →
      ∃ a ∈ get_accessible_modules demoDb demoUser, a.name = m.name) ∧
    List.Pairwise (fun a b : AccessibleEntry => ∀ ma mb,
      moduleByName demoDb a.name = some ma →
      moduleByName demoDb b.name = some mb →
      ma.sort_order ≤ mb.sort_order)
      (get_accessible_modules demoDb demoUser) ∧
    (∀ m ∈ demoDb.modules, m.is_active = false →
      ∀ a ∈ get_accessible_modules demoDb demoUser, a.name ≠ m.name) :=
  c6_accessible_modules demoDb demoUser (by decide)

end Rbac
